import Mathlib

/-!
Verification development for the tadatakit schema compiler
(`tadatakit/class_generator`): a shallow embedding in Lean of the
name-translation utilities (`utils.py`), the definition classifier
(`definition_registry.py`), the polymorphic dispatcher
(`polymorph_factory.py`) and the generated-object protocol
(`base_classes.py`: the synthesized constructor, `from_dict`, `to_dict`),
together with theorems settling the specified properties.

Modelling conventions:
* Python strings are modelled over ASCII characters (`Char.isUpper` etc.
  in Lean are the ASCII predicates, matching the identifiers that occur
  in the schemas this code compiles).
* Python exceptions are modelled by an explicit error type returned in
  `Except`.
* Mutation of the per-class special-names set by `pascal_to_snake` is
  modelled by returning the updated set; the string it computes does not
  depend on the set, only `snake_to_pascal` reads it.
-/

/-- A single-quote character, used to build Python error messages. -/
def pyQuote : String := (Char.ofNat 39).toString


/-! ## utils.py: case translation

`pascal_to_snake` uses two `re.sub` calls:
`re.sub("(.)([A-Z][a-z]+)", r"\1_\2", name)` followed by
`re.sub("([a-z0-9])([A-Z])", r"\1_\2", s1)` and a final `.lower()`.
Both substitutions are embedded as left-to-right scans over the character
list with non-overlapping, greedy matches, exactly as `re.sub` behaves on
these two patterns. -/

/-- Embedding of `re.sub("(.)([A-Z][a-z]+)", r"\1_\2", _)`: at each
position, match any character, then an uppercase letter, then a maximal
nonempty run of lowercase letters; insert an underscore between the first
character and the uppercase letter, and continue scanning after the
match.  The Boolean flag records whether the scanner is still inside the
lowercase run consumed by the previous match (such characters are copied
verbatim and cannot start a new match, exactly re.sub's non-overlapping
continuation). -/
def sub1A : Bool → List Char → List Char
  | _, [] => []
  | inRun, c :: u :: r :: rest =>
    if inRun && c.isLower then c :: sub1A true (u :: r :: rest)
    else if u.isUpper && r.isLower then c :: '_' :: u :: sub1A true (r :: rest)
    else c :: sub1A false (u :: r :: rest)
  | inRun, c :: rest =>
    if inRun && c.isLower then c :: sub1A true rest
    else c :: rest

/-- The full first substitution, starting outside any consumed run. -/
def sub1 (l : List Char) : List Char := sub1A false l

/-- Embedding of `re.sub("([a-z0-9])([A-Z])", r"\1_\2", _)`: at each
position, match a lowercase letter or digit followed by an uppercase
letter, insert an underscore between them, and continue after the match. -/
def sub2 : List Char → List Char
  | a :: b :: rest =>
    if (a.isLower || a.isDigit) && b.isUpper then
      a :: '_' :: b :: sub2 rest
    else
      a :: sub2 (b :: rest)
  | l => l

/-- ASCII model of Python `str.isidentifier`. -/
def isIdent (s : String) : Bool :=
  match s.toList with
  | [] => false
  | c :: cs => (c.isAlpha || c == '_') && cs.all (fun d => d.isAlphanum || d == '_')

/-- Embedding of `pascal_to_snake(name, special_names_set)`
(`utils.py`).  Returns the converted string together with the (possibly
extended) special-names set; the Python function mutates the set in
place when the name contains an underscore. -/
def pascal_to_snake (name : String) (s : List String) : String × List String :=
  if ¬ isIdent name then (name, s)
  else if name.toList.contains '_' then
    (name, if name ∈ s then s else name :: s)
  else (⟨(sub2 (sub1 name.toList)).map Char.toLower⟩, s)

/-- The string computed by `pascal_to_snake`; it does not depend on the
special-names set (the set is only added to, never read). -/
def p2sName (name : String) : String := (pascal_to_snake name []).1

/-- Embedding of Python `str.title` (ASCII): a cased character is
uppercased when the previous character is not a letter and lowercased
otherwise. -/
def titleChars : List Char → Bool → List Char
  | [], _ => []
  | c :: cs, prevAlpha =>
    (if c.isAlpha then (if prevAlpha then c.toLower else c.toUpper) else c) ::
      titleChars cs c.isAlpha

/-- Embedding of Python `str.split("_")`: split at every underscore,
keeping empty parts. -/
def splitUnderscore : List Char → List (List Char)
  | [] => [[]]
  | c :: rest =>
    if c == '_' then [] :: splitUnderscore rest
    else
      match splitUnderscore rest with
      | part :: parts => (c :: part) :: parts
      | [] => [[c]]

/-- Embedding of `snake_to_pascal(name, special_names_set)` (`utils.py`):
identity on non-identifiers and on registered special names, otherwise
`"".join(x.title() for x in name.split("_"))`. -/
def snake_to_pascal (name : String) (s : List String) : String :=
  if ¬ isIdent name then name
  else if name ∈ s then name
  else ⟨((splitUnderscore name.toList).map (titleChars · false)).flatten⟩

/-! ## Character-class facts (ASCII) used by the case-translation proofs -/

theorem ule_nat {a b : UInt32} : (a ≤ b) ↔ a.toNat ≤ b.toNat := by
  simp [UInt32.le_def, BitVec.le_def]; rfl

theorem toNat_ofNat_valid {n : Nat} (h : n.isValidChar) : (Char.ofNat n).toNat = n := by
  rw [Char.ofNat, dif_pos h]
  simp [Char.ofNatAux, Char.toNat, UInt32.toNat]

theorem lower_not_upper {c : Char} (h : c.isLower = true) : c.isUpper = false := by
  simp only [Char.isLower, Bool.and_eq_true, decide_eq_true_eq, ule_nat] at h
  simp only [Char.isUpper, Bool.and_eq_false_iff, decide_eq_false_iff_not, ule_nat]
  have e97 : (97 : UInt32).toNat = 97 := rfl
  have e90 : (90 : UInt32).toNat = 90 := rfl
  have e122 : (122 : UInt32).toNat = 122 := rfl
  rw [e97, e122] at h
  rw [e90]
  right
  omega

theorem upper_not_lower {c : Char} (h : c.isUpper = true) : c.isLower = false := by
  simp only [Char.isUpper, Bool.and_eq_true, decide_eq_true_eq, ule_nat] at h
  simp only [Char.isLower, Bool.and_eq_false_iff, decide_eq_false_iff_not, ule_nat]
  have e97 : (97 : UInt32).toNat = 97 := rfl
  have e65 : (65 : UInt32).toNat = 65 := rfl
  have e90 : (90 : UInt32).toNat = 90 := rfl
  rw [e65, e90] at h
  rw [e97]
  left
  omega

theorem upper_not_digit {c : Char} (h : c.isUpper = true) : c.isDigit = false := by
  simp only [Char.isUpper, Bool.and_eq_true, decide_eq_true_eq, ule_nat] at h
  simp only [Char.isDigit, Bool.and_eq_false_iff, decide_eq_false_iff_not, ule_nat]
  have e65 : (65 : UInt32).toNat = 65 := rfl
  have e90 : (90 : UInt32).toNat = 90 := rfl
  have e57 : (57 : UInt32).toNat = 57 := rfl
  rw [e65, e90] at h
  rw [e57]
  right
  omega

theorem lower_toLower {c : Char} (h : c.isLower = true) : c.toLower = c := by
  simp only [Char.isLower, Bool.and_eq_true, decide_eq_true_eq, ule_nat] at h
  have e97 : (97 : UInt32).toNat = 97 := rfl
  have e122 : (122 : UInt32).toNat = 122 := rfl
  rw [e97, e122] at h
  simp only [Char.toLower, Char.toNat]
  rw [if_neg]
  omega

theorem toLower_isLower {c : Char} (h : c.isUpper = true) : c.toLower.isLower = true := by
  simp only [Char.isUpper, Bool.and_eq_true, decide_eq_true_eq, ule_nat] at h
  have e65 : (65 : UInt32).toNat = 65 := rfl
  have e90 : (90 : UInt32).toNat = 90 := rfl
  rw [e65, e90] at h
  simp only [Char.toLower, Char.toNat]
  rw [if_pos (by omega)]
  simp only [Char.isLower, Bool.and_eq_true, decide_eq_true_eq, ule_nat]
  have hv : (Char.ofNat (c.val.toNat + 32)).toNat = c.val.toNat + 32 :=
    toNat_ofNat_valid (Or.inl (by omega))
  have hv2 : (Char.ofNat (c.val.toNat + 32)).val.toNat = c.val.toNat + 32 := hv
  have e97 : (97 : UInt32).toNat = 97 := rfl
  have e122 : (122 : UInt32).toNat = 122 := rfl
  rw [e97, e122]
  constructor
  · rw [show (Char.ofNat (c.val.toNat + 32)).val.toNat = c.val.toNat + 32 from hv2]
    omega
  · rw [show (Char.ofNat (c.val.toNat + 32)).val.toNat = c.val.toNat + 32 from hv2]
    omega

theorem toUpper_toLower {c : Char} (h : c.isUpper = true) : c.toLower.toUpper = c := by
  simp only [Char.isUpper, Bool.and_eq_true, decide_eq_true_eq, ule_nat] at h
  have e65 : (65 : UInt32).toNat = 65 := rfl
  have e90 : (90 : UInt32).toNat = 90 := rfl
  rw [e65, e90] at h
  simp only [Char.toLower, Char.toNat]
  rw [if_pos (by omega)]
  have hv : (Char.ofNat (c.val.toNat + 32)).toNat = c.val.toNat + 32 :=
    toNat_ofNat_valid (Or.inl (by omega))
  have hv2 : (Char.ofNat (c.val.toNat + 32)).val.toNat = c.val.toNat + 32 := hv
  simp only [Char.toUpper, Char.toNat]
  rw [hv2, if_pos (by omega)]
  have e : c.val.toNat + 32 - 32 = c.val.toNat := by omega
  rw [e]
  exact Char.ofNat_toNat c

theorem lower_isAlpha {c : Char} (h : c.isLower = true) : c.isAlpha = true := by
  simp [Char.isAlpha, h]

theorem upper_isAlpha {c : Char} (h : c.isUpper = true) : c.isAlpha = true := by
  simp [Char.isAlpha, h]

theorem alpha_ne_underscore {c : Char} (h : c.isAlpha = true) : (c == '_') = false := by
  cases hc : c == '_'
  · rfl
  · exfalso
    have : c = '_' := by exact eq_of_beq hc
    subst this
    simp [Char.isAlpha, Char.isUpper, Char.isLower] at h

/-! ## Block-structured names

A "block" is an uppercase letter followed by a nonempty run of lowercase
letters; conventional PascalCase identifiers are nonempty concatenations
of blocks, and their snake_case counterparts are the lowercased blocks
joined by underscores. -/

/-- A well-formed block: uppercase head, nonempty all-lowercase tail. -/
def BlockOk (b : Char × List Char) : Prop :=
  b.1.isUpper = true ∧ b.2 ≠ [] ∧ ∀ c ∈ b.2, c.isLower = true

instance : DecidablePred BlockOk := fun b => by
  unfold BlockOk
  infer_instance

/-- The characters of one block. -/
def blockChars (b : Char × List Char) : List Char := b.1 :: b.2

/-- The PascalCase spelling of a block list. -/
def pascalChars (bs : List (Char × List Char)) : List Char :=
  (bs.map blockChars).flatten

/-- One lowercased block (snake_case chunk). -/
def blockLower (b : Char × List Char) : List Char := b.1.toLower :: b.2

/-- The snake_case spelling of a block list: lowercased blocks joined by
underscores. -/
def snakeLChars : List (Char × List Char) → List Char
  | [] => []
  | b :: rest => blockLower b ++ (rest.map (fun b2 => '_' :: blockLower b2)).flatten

/-- Intermediate shape produced by the first substitution: blocks grouped
in pairs, with an underscore inside each pair only. -/
def pairChars : List (Char × List Char) → List Char
  | [] => []
  | [b] => blockChars b
  | b1 :: b2 :: rest => blockChars b1 ++ '_' :: blockChars b2 ++ pairChars rest

/-- Tail of the fully separated (still-uppercase) shape: every block
preceded by an underscore. -/
def joinTail (bs : List (Char × List Char)) : List Char :=
  (bs.map (fun b => '_' :: blockChars b)).flatten

/-- The fully underscore-separated shape, original case. -/
def snakeUChars : List (Char × List Char) → List Char
  | [] => []
  | b :: rest => blockChars b ++ joinTail rest

/-! ### Behaviour of the first substitution on block lists -/

theorem sub1A_true_lower {c : Char} (h : c.isLower = true) (l : List Char) :
    sub1A true (c :: l) = c :: sub1A true l := by
  match l with
  | [] => simp [sub1A, h]
  | [x] => simp [sub1A, h]
  | x :: y :: ys => simp [sub1A, h]

theorem sub1A_true_eq_false {c : Char} (h : c.isLower = false) (l : List Char) :
    sub1A true (c :: l) = sub1A false (c :: l) := by
  match l with
  | [] => simp [sub1A, h]
  | [x] => simp [sub1A, h]
  | x :: y :: ys => simp [sub1A, h]

theorem sub1A_false_skip {c u r : Char} (h : u.isUpper = false) (rest : List Char) :
    sub1A false (c :: u :: r :: rest) = c :: sub1A false (u :: r :: rest) := by
  simp [sub1A, h]

theorem sub1A_false_match {c u r : Char} (hu : u.isUpper = true) (hr : r.isLower = true)
    (rest : List Char) :
    sub1A false (c :: u :: r :: rest) = c :: '_' :: u :: sub1A true (r :: rest) := by
  simp [sub1A, hu, hr]

theorem sub1_lower_id : ∀ l : List Char, (∀ c ∈ l, c.isLower = true) →
    sub1A false l = l
  | [], _ => rfl
  | [c], _ => by simp [sub1A]
  | [c, x], _ => by simp [sub1A]
  | c :: x :: y :: ys, h => by
    have hx : x.isLower = true := h x (by simp)
    rw [sub1A_false_skip (lower_not_upper hx)]
    rw [sub1_lower_id (x :: y :: ys) (fun d hd => h d (List.mem_cons_of_mem c hd))]

theorem sub1_run : ∀ ls : List Char, (∀ c ∈ ls, c.isLower = true) →
    ∀ rest, sub1A true (ls ++ rest) = ls ++ sub1A true rest
  | [], _, rest => rfl
  | c :: ls', h, rest => by
    have hc : c.isLower = true := h c (by simp)
    rw [List.cons_append, sub1A_true_lower hc]
    rw [sub1_run ls' (fun d hd => h d (List.mem_cons_of_mem c hd)) rest]
    simp

theorem sub1_enter : ∀ (ls : List Char) (a : Char), a.isLower = true →
    (∀ c ∈ ls, c.isLower = true) →
    ∀ (u r : Char) (rest : List Char), u.isUpper = true → r.isLower = true →
    sub1A false (a :: ls ++ u :: r :: rest) =
      (a :: ls) ++ '_' :: u :: sub1A true (r :: rest)
  | [], a, _, _, u, r, rest, hu, hr => by
    simpa using sub1A_false_match hu hr rest
  | b :: ls', a, ha, hls, u, r, rest, hu, hr => by
    have hb : b.isLower = true := hls b (by simp)
    have step : sub1A false (a :: b :: (ls' ++ u :: r :: rest)) =
        a :: sub1A false (b :: (ls' ++ u :: r :: rest)) := by
      match ls' with
      | [] => exact sub1A_false_skip (lower_not_upper hb) _
      | x :: xs => exact sub1A_false_skip (lower_not_upper hb) _
    have ih := sub1_enter ls' b hb (fun d hd => hls d (by simp [hd])) u r rest hu hr
    calc sub1A false (a :: (b :: ls') ++ u :: r :: rest)
        = a :: sub1A false (b :: (ls' ++ u :: r :: rest)) := step
      _ = a :: ((b :: ls') ++ '_' :: u :: sub1A true (r :: rest)) := by
          rw [← ih]; rfl
      _ = (a :: b :: ls') ++ '_' :: u :: sub1A true (r :: rest) := rfl

theorem sub1_block_alone : ∀ (u : Char) (ls : List Char), u.isUpper = true →
    ls ≠ [] → (∀ c ∈ ls, c.isLower = true) → sub1A false (u :: ls) = u :: ls
  | u, [], _, h, _ => absurd rfl h
  | u, [l], _, _, _ => by simp [sub1A]
  | u, l1 :: l2 :: ls', hu, _, hls => by
    have h1 : l1.isLower = true := hls l1 (by simp)
    rw [sub1A_false_skip (lower_not_upper h1)]
    rw [sub1_lower_id (l1 :: l2 :: ls') hls]

theorem sub1_true_pascal : ∀ bs : List (Char × List Char),
    (∀ b ∈ bs, BlockOk b) → sub1A true (pascalChars bs) = sub1A false (pascalChars bs)
  | [], _ => rfl
  | (u, ls) :: rest, h => by
    have hu : u.isUpper = true := (h (u, ls) (by simp)).1
    have : pascalChars ((u, ls) :: rest) = u :: (ls ++ pascalChars rest) := by
      simp [pascalChars, blockChars]
    rw [this]
    exact sub1A_true_eq_false (upper_not_lower hu) _

theorem sub1_pascal : ∀ bs : List (Char × List Char),
    (∀ b ∈ bs, BlockOk b) → sub1A false (pascalChars bs) = pairChars bs
  | [], _ => rfl
  | [(u, ls)], h => by
    obtain ⟨hu, hne, hls⟩ := h (u, ls) (by simp)
    have e : pascalChars [(u, ls)] = u :: ls := by
      simp [pascalChars, blockChars]
    rw [e, sub1_block_alone u ls hu hne hls]
    simp [pairChars, blockChars]
  | (u1, ls1) :: (u2, ls2) :: rest, h => by
    obtain ⟨hu1, hne1, hls1⟩ := h (u1, ls1) (by simp)
    obtain ⟨hu2, hne2, hls2⟩ := h (u2, ls2) (by simp)
    match ls1, hne1 with
    | a1 :: ls1', _ =>
    match ls2, hne2 with
    | r2 :: ls2', _ =>
    have ha1 : a1.isLower = true := hls1 a1 (by simp)
    have hr2 : r2.isLower = true := hls2 r2 (by simp)
    have e : pascalChars ((u1, a1 :: ls1') :: (u2, r2 :: ls2') :: rest) =
        u1 :: a1 :: (ls1' ++ u2 :: r2 :: (ls2' ++ pascalChars rest)) := by
      simp [pascalChars, blockChars]
    rw [e]
    have step1 : sub1A false (u1 :: a1 :: (ls1' ++ u2 :: r2 :: (ls2' ++ pascalChars rest))) =
        u1 :: sub1A false (a1 :: (ls1' ++ u2 :: r2 :: (ls2' ++ pascalChars rest))) := by
      match ls1' with
      | [] => exact sub1A_false_skip (lower_not_upper ha1) _
      | x :: xs => exact sub1A_false_skip (lower_not_upper ha1) _
    rw [step1]
    have step2 := sub1_enter ls1' a1 ha1 (fun d hd => hls1 d (by simp [hd]))
      u2 r2 (ls2' ++ pascalChars rest) hu2 hr2
    rw [show a1 :: (ls1' ++ u2 :: r2 :: (ls2' ++ pascalChars rest)) =
        a1 :: ls1' ++ u2 :: r2 :: (ls2' ++ pascalChars rest) from rfl, step2]
    have step3 : sub1A true (r2 :: (ls2' ++ pascalChars rest)) =
        (r2 :: ls2') ++ sub1A true (pascalChars rest) := by
      have := sub1_run (r2 :: ls2')
        (fun d hd => hls2 d hd) (pascalChars rest)
      simpa using this
    rw [step3]
    have step4 : sub1A true (pascalChars rest) = pairChars rest := by
      rw [sub1_true_pascal rest (fun b hb => h b (by simp [hb]))]
      exact sub1_pascal rest (fun b hb => h b (by simp [hb]))
    rw [step4]
    simp [pairChars, blockChars]

/-! ### Behaviour of the second substitution -/

theorem underscore_not_ld : ('_'.isLower || '_'.isDigit) = false := by decide

theorem sub2_skip {a b : Char} (h : ((a.isLower || a.isDigit) && b.isUpper) = false)
    (l : List Char) : sub2 (a :: b :: l) = a :: sub2 (b :: l) := by
  simp [sub2, h]

theorem sub2_match {a b : Char} (ha : (a.isLower || a.isDigit) = true)
    (hb : b.isUpper = true) (l : List Char) :
    sub2 (a :: b :: l) = a :: '_' :: b :: sub2 l := by
  simp [sub2, ha, hb]

theorem sub2_lower_id : ∀ l : List Char, (∀ c ∈ l, c.isLower = true) → sub2 l = l
  | [], _ => rfl
  | [a], _ => rfl
  | a :: b :: l, h => by
    have hb : b.isLower = true := h b (by simp)
    rw [sub2_skip (by simp [lower_not_upper hb]) l]
    rw [sub2_lower_id (b :: l) (fun d hd => h d (List.mem_cons_of_mem a hd))]

theorem sub2_lower_seg : ∀ ls : List Char, (∀ c ∈ ls, c.isLower = true) →
    ∀ (c : Char) (rest : List Char), c.isUpper = false →
    sub2 (ls ++ c :: rest) = ls ++ sub2 (c :: rest)
  | [], _, c, rest, _ => rfl
  | a :: ls', h, c, rest, hc => by
    have nxt : ((a.isLower || a.isDigit) && (ls' ++ c :: rest).headI.isUpper) = false := by
      match ls' with
      | [] => simp [hc]
      | x :: xs =>
        have hx : x.isLower = true := h x (by simp)
        simp [lower_not_upper hx]
    match ls' with
    | [] =>
      rw [List.cons_append, List.nil_append, sub2_skip (by simpa using nxt) rest]
      rfl
    | x :: xs =>
      have step : sub2 (a :: (x :: xs ++ c :: rest)) = a :: sub2 (x :: xs ++ c :: rest) := by
        exact sub2_skip (by simpa using nxt) _
      rw [List.cons_append, step,
        sub2_lower_seg (x :: xs) (fun d hd => h d (List.mem_cons_of_mem a hd)) c rest hc]
      simp

theorem sub2_lower_then_upper : ∀ ls : List Char, ls ≠ [] →
    (∀ c ∈ ls, c.isLower = true) → ∀ (u : Char) (rest : List Char), u.isUpper = true →
    sub2 (ls ++ u :: rest) = ls ++ '_' :: u :: sub2 rest
  | [], h, _, _, _, _ => absurd rfl h
  | [a], _, h, u, rest, hu => by
    have ha : a.isLower = true := h a (by simp)
    rw [List.cons_append, List.nil_append, sub2_match (by simp [ha]) hu rest]
    simp
  | a :: b :: ls', _, h, u, rest, hu => by
    have hb : b.isLower = true := h b (by simp)
    have step : sub2 (a :: (b :: ls' ++ u :: rest)) = a :: sub2 (b :: ls' ++ u :: rest) := by
      have : ((a.isLower || a.isDigit) && (b :: ls' ++ u :: rest).headI.isUpper) = false := by
        simp [lower_not_upper hb]
      exact sub2_skip (by simpa using this) _
    rw [List.cons_append, step,
      sub2_lower_then_upper (b :: ls') (by simp) (fun d hd => h d (List.mem_cons_of_mem a hd))
        u rest hu]
    simp

theorem sub2_join : ∀ bs : List (Char × List Char), (∀ b ∈ bs, BlockOk b) →
    ∀ ls : List Char, ls ≠ [] → (∀ c ∈ ls, c.isLower = true) →
    sub2 (ls ++ pairChars bs) = ls ++ joinTail bs
  | [], _, ls, _, hls => by
    simp [pairChars, joinTail]
    exact sub2_lower_id ls hls
  | [(u3, ls3)], h, ls, hne, hls => by
    obtain ⟨hu3, hne3, hls3⟩ := h (u3, ls3) (by simp)
    have e : pairChars [(u3, ls3)] = u3 :: ls3 := by simp [pairChars, blockChars]
    rw [e, sub2_lower_then_upper ls hne hls u3 ls3 hu3, sub2_lower_id ls3 hls3]
    simp [joinTail, blockChars]
  | (u3, ls3) :: (u4, ls4) :: rest, h, ls, hne, hls => by
    obtain ⟨hu3, hne3, hls3⟩ := h (u3, ls3) (by simp)
    obtain ⟨hu4, hne4, hls4⟩ := h (u4, ls4) (by simp)
    match ls4, hne4 with
    | r4 :: ls4', _ =>
    have e : pairChars ((u3, ls3) :: (u4, r4 :: ls4') :: rest) =
        u3 :: (ls3 ++ '_' :: u4 :: (r4 :: ls4' ++ pairChars rest)) := by
      simp [pairChars, blockChars]
    rw [e]
    have s1 : sub2 (ls ++ u3 :: (ls3 ++ '_' :: u4 :: (r4 :: ls4' ++ pairChars rest))) =
        ls ++ '_' :: u3 :: sub2 (ls3 ++ '_' :: u4 :: (r4 :: ls4' ++ pairChars rest)) :=
      sub2_lower_then_upper ls hne hls u3 _ hu3
    rw [s1]
    have s2 : sub2 (ls3 ++ '_' :: u4 :: (r4 :: ls4' ++ pairChars rest)) =
        ls3 ++ sub2 ('_' :: u4 :: (r4 :: ls4' ++ pairChars rest)) :=
      sub2_lower_seg ls3 hls3 '_' _ (by decide)
    rw [s2]
    have s3 : sub2 ('_' :: u4 :: (r4 :: ls4' ++ pairChars rest)) =
        '_' :: sub2 (u4 :: (r4 :: ls4' ++ pairChars rest)) :=
      sub2_skip (by simp [underscore_not_ld]) _
    rw [s3]
    have s4 : sub2 (u4 :: (r4 :: ls4' ++ pairChars rest)) =
        u4 :: sub2 (r4 :: ls4' ++ pairChars rest) := by
      have : ((u4.isLower || u4.isDigit) && r4.isUpper) = false := by
        simp [upper_not_lower hu4, upper_not_digit hu4]
      exact sub2_skip (by simpa using this) _
    rw [s4]
    have s5 : sub2 (r4 :: ls4' ++ pairChars rest) = (r4 :: ls4') ++ joinTail rest :=
      sub2_join rest (fun b hb => h b (by simp [hb])) (r4 :: ls4') (by simp)
        (fun d hd => hls4 d hd)
    rw [s5]
    simp [joinTail, blockChars]

theorem sub2_pair : ∀ bs : List (Char × List Char), (∀ b ∈ bs, BlockOk b) →
    sub2 (pairChars bs) = snakeUChars bs
  | [], _ => rfl
  | [(u, ls)], h => by
    obtain ⟨hu, hne, hls⟩ := h (u, ls) (by simp)
    match ls, hne with
    | l :: ls', _ =>
    have e : pairChars [(u, l :: ls')] = u :: l :: ls' := by simp [pairChars, blockChars]
    rw [e]
    have hl : l.isLower = true := hls l (by simp)
    have s1 : sub2 (u :: l :: ls') = u :: sub2 (l :: ls') := by
      have : ((u.isLower || u.isDigit) && l.isUpper) = false := by
        simp [upper_not_lower hu, upper_not_digit hu]
      exact sub2_skip (by simpa using this) _
    rw [s1, sub2_lower_id (l :: ls') hls]
    simp [snakeUChars, joinTail, blockChars]
  | (u1, ls1) :: (u2, ls2) :: rest, h => by
    obtain ⟨hu1, hne1, hls1⟩ := h (u1, ls1) (by simp)
    obtain ⟨hu2, hne2, hls2⟩ := h (u2, ls2) (by simp)
    match ls1, hne1 with
    | a1 :: ls1', _ =>
    match ls2, hne2 with
    | r2 :: ls2', _ =>
    have e : pairChars ((u1, a1 :: ls1') :: (u2, r2 :: ls2') :: rest) =
        u1 :: (a1 :: ls1' ++ '_' :: u2 :: (r2 :: ls2' ++ pairChars rest)) := by
      simp [pairChars, blockChars]
    rw [e]
    have ha1 : a1.isLower = true := hls1 a1 (by simp)
    have s1 : sub2 (u1 :: (a1 :: ls1' ++ '_' :: u2 :: (r2 :: ls2' ++ pairChars rest))) =
        u1 :: sub2 (a1 :: ls1' ++ '_' :: u2 :: (r2 :: ls2' ++ pairChars rest)) := by
      have : ((u1.isLower || u1.isDigit) && a1.isUpper) = false := by
        simp [upper_not_lower hu1, upper_not_digit hu1]
      exact sub2_skip (by simpa using this) _
    rw [s1]
    have s2 : sub2 (a1 :: ls1' ++ '_' :: u2 :: (r2 :: ls2' ++ pairChars rest)) =
        a1 :: ls1' ++ sub2 ('_' :: u2 :: (r2 :: ls2' ++ pairChars rest)) :=
      sub2_lower_seg (a1 :: ls1') hls1 '_' _ (by decide)
    rw [s2]
    have s3 : sub2 ('_' :: u2 :: (r2 :: ls2' ++ pairChars rest)) =
        '_' :: sub2 (u2 :: (r2 :: ls2' ++ pairChars rest)) :=
      sub2_skip (by simp [underscore_not_ld]) _
    rw [s3]
    have s4 : sub2 (u2 :: (r2 :: ls2' ++ pairChars rest)) =
        u2 :: sub2 (r2 :: ls2' ++ pairChars rest) := by
      have : ((u2.isLower || u2.isDigit) && r2.isUpper) = false := by
        simp [upper_not_lower hu2, upper_not_digit hu2]
      exact sub2_skip (by simpa using this) _
    rw [s4]
    have s5 : sub2 (r2 :: ls2' ++ pairChars rest) = (r2 :: ls2') ++ joinTail rest :=
      sub2_join rest (fun b hb => h b (by simp [hb])) (r2 :: ls2') (by simp)
        (fun d hd => hls2 d hd)
    rw [s5]
    simp [snakeUChars, joinTail, blockChars]

/-! ### Lowercasing, splitting and titling block shapes -/

theorem map_toLower_lower : ∀ ls : List Char, (∀ c ∈ ls, c.isLower = true) →
    ls.map Char.toLower = ls
  | [], _ => rfl
  | c :: rest, h => by
    rw [List.map_cons, lower_toLower (h c (by simp)),
      map_toLower_lower rest (fun d hd => h d (List.mem_cons_of_mem c hd))]

theorem block_toLower {b : Char × List Char} (h : BlockOk b) :
    (blockChars b).map Char.toLower = blockLower b := by
  obtain ⟨hu, hne, hls⟩ := h
  simp only [blockChars, blockLower, List.map_cons]
  rw [map_toLower_lower b.2 hls]

theorem joinTail_toLower : ∀ bs : List (Char × List Char), (∀ b ∈ bs, BlockOk b) →
    (joinTail bs).map Char.toLower = (bs.map (fun b => '_' :: blockLower b)).flatten
  | [], _ => rfl
  | b :: rest, h => by
    have e : joinTail (b :: rest) = '_' :: blockChars b ++ joinTail rest := by
      simp [joinTail, blockChars]
    rw [e]
    simp only [List.map_cons, List.map_append, List.flatten_cons, List.cons_append]
    have lun : '_'.toLower = '_' := by decide
    rw [lun, block_toLower (h b (by simp)),
      joinTail_toLower rest (fun b2 hb2 => h b2 (List.mem_cons_of_mem b hb2))]

theorem snakeU_toLower : ∀ bs : List (Char × List Char), (∀ b ∈ bs, BlockOk b) →
    (snakeUChars bs).map Char.toLower = snakeLChars bs
  | [], _ => rfl
  | b :: rest, h => by
    have e1 : snakeUChars (b :: rest) = blockChars b ++ joinTail rest := rfl
    have e2 : snakeLChars (b :: rest) =
        blockLower b ++ (rest.map (fun b2 => '_' :: blockLower b2)).flatten := rfl
    rw [e1, e2, List.map_append, block_toLower (h b (by simp)),
      joinTail_toLower rest (fun b2 hb2 => h b2 (List.mem_cons_of_mem b hb2))]

theorem splitUnderscore_ne_nil : ∀ l : List Char, splitUnderscore l ≠ []
  | [] => by simp [splitUnderscore]
  | c :: rest => by
    by_cases h : c == '_'
    · simp [splitUnderscore, h]
    · simp only [splitUnderscore, h]
      match e : splitUnderscore rest with
      | part :: parts => simp
      | [] => simp

theorem splitUnderscore_no_us : ∀ chunk : List Char,
    (∀ c ∈ chunk, (c == '_') = false) → splitUnderscore chunk = [chunk]
  | [], _ => rfl
  | c :: rest, h => by
    simp only [splitUnderscore, h c (by simp)]
    rw [splitUnderscore_no_us rest (fun d hd => h d (List.mem_cons_of_mem c hd))]
    simp

theorem splitUnderscore_chunk : ∀ chunk : List Char,
    (∀ c ∈ chunk, (c == '_') = false) → ∀ r : List Char,
    splitUnderscore (chunk ++ '_' :: r) = chunk :: splitUnderscore r
  | [], _, r => by simp [splitUnderscore]
  | c :: rest, h, r => by
    have hc : (c == '_') = false := h c (by simp)
    have ih := splitUnderscore_chunk rest (fun d hd => h d (List.mem_cons_of_mem c hd)) r
    simp only [List.cons_append, splitUnderscore, hc]
    rw [show (rest.append ('_' :: r)) = rest ++ '_' :: r from rfl, ih]
    simp

theorem blockLower_no_us {b : Char × List Char} (h : BlockOk b) :
    ∀ c ∈ blockLower b, (c == '_') = false := by
  obtain ⟨hu, hne, hls⟩ := h
  intro c hc
  simp only [blockLower, List.mem_cons] at hc
  rcases hc with hc | hc
  · subst hc
    exact alpha_ne_underscore (lower_isAlpha (toLower_isLower hu))
  · exact alpha_ne_underscore (lower_isAlpha (hls c hc))

theorem split_snakeL : ∀ bs : List (Char × List Char), (∀ b ∈ bs, BlockOk b) →
    bs ≠ [] → splitUnderscore (snakeLChars bs) = bs.map blockLower
  | [], _, hne => absurd rfl hne
  | [b], h, _ => by
    have e : snakeLChars [b] = blockLower b := by simp [snakeLChars]
    rw [e, splitUnderscore_no_us (blockLower b) (blockLower_no_us (h b (by simp)))]
    simp
  | b :: b2 :: rest, h, _ => by
    have e : snakeLChars (b :: b2 :: rest) =
        blockLower b ++ '_' :: snakeLChars (b2 :: rest) := by
      simp [snakeLChars]
    rw [e, splitUnderscore_chunk (blockLower b) (blockLower_no_us (h b (by simp))),
      split_snakeL (b2 :: rest) (fun b3 hb3 => h b3 (List.mem_cons_of_mem b hb3)) (by simp)]
    simp

theorem titleChars_lower_rest : ∀ ls : List Char, (∀ c ∈ ls, c.isLower = true) →
    titleChars ls true = ls
  | [], _ => rfl
  | c :: rest, h => by
    have hc : c.isLower = true := h c (by simp)
    have ih := titleChars_lower_rest rest (fun d hd => h d (List.mem_cons_of_mem c hd))
    simp [titleChars, lower_isAlpha hc, lower_toLower hc, ih]

theorem title_blockLower {b : Char × List Char} (h : BlockOk b) :
    titleChars (blockLower b) false = blockChars b := by
  obtain ⟨hu, hne, hls⟩ := h
  simp only [blockLower, blockChars, titleChars,
    lower_isAlpha (toLower_isLower hu), if_true]
  rw [toUpper_toLower hu, titleChars_lower_rest b.2 hls]
  simp

/-! ### Identifier-shape facts for block names -/

theorem pascalChars_alpha : ∀ bs : List (Char × List Char), (∀ b ∈ bs, BlockOk b) →
    ∀ c ∈ pascalChars bs, c.isAlpha = true
  | [], _, c, hc => by simp [pascalChars] at hc
  | b :: rest, h, c, hc => by
    obtain ⟨hu, hne, hls⟩ := h b (by simp)
    have e : pascalChars (b :: rest) = (b.1 :: b.2) ++ pascalChars rest := by
      simp [pascalChars, blockChars]
    rw [e] at hc
    rcases List.mem_append.1 hc with hc | hc
    · rcases List.mem_cons.1 hc with hc | hc
      · subst hc; exact upper_isAlpha hu
      · exact lower_isAlpha (hls c hc)
    · exact pascalChars_alpha rest (fun b2 hb2 => h b2 (List.mem_cons_of_mem b hb2)) c hc

theorem snakeLChars_shape : ∀ bs : List (Char × List Char), (∀ b ∈ bs, BlockOk b) →
    ∀ c ∈ snakeLChars bs, c.isLower = true ∨ c = '_'
  | [], _, c, hc => by simp [snakeLChars] at hc
  | b :: rest, h, c, hc => by
    obtain ⟨hu, hne, hls⟩ := h b (by simp)
    have e : snakeLChars (b :: rest) =
        blockLower b ++ (rest.map (fun b2 => '_' :: blockLower b2)).flatten := rfl
    rw [e] at hc
    rcases List.mem_append.1 hc with hc | hc
    · rcases List.mem_cons.1 hc with hc | hc
      · subst hc; exact Or.inl (toLower_isLower hu)
      · exact Or.inl (hls c hc)
    · have : snakeLChars rest = [] ∨ ∃ b2 rest2, rest = b2 :: rest2 := by
        cases rest with
        | nil => exact Or.inl rfl
        | cons b2 rest2 => exact Or.inr ⟨b2, rest2, rfl⟩
      cases rest with
      | nil => simp at hc
      | cons b2 rest2 =>
        have e2 : ((b2 :: rest2).map (fun x => '_' :: blockLower x)).flatten =
            '_' :: snakeLChars (b2 :: rest2) := by
          simp [snakeLChars]
        rw [e2] at hc
        rcases List.mem_cons.1 hc with hc | hc
        · exact Or.inr hc
        · exact snakeLChars_shape (b2 :: rest2)
            (fun b3 hb3 => h b3 (List.mem_cons_of_mem b hb3)) c hc

theorem contains_us_false : ∀ l : List Char, (∀ c ∈ l, c.isAlpha = true) →
    l.contains '_' = false := by
  intro l h
  cases hc : l.contains '_'
  · rfl
  · exfalso
    have : '_' ∈ l := by
      have := List.elem_iff.1 hc
      exact this
    have := h '_' this
    simp [Char.isAlpha, Char.isUpper, Char.isLower] at this

theorem pascal_isIdent (bs : List (Char × List Char)) (hne : bs ≠ [])
    (h : ∀ b ∈ bs, BlockOk b) : isIdent ⟨pascalChars bs⟩ = true := by
  match bs, hne with
  | b :: rest, _ =>
    obtain ⟨hu, hbne, hls⟩ := h b (by simp)
    have e : pascalChars (b :: rest) = b.1 :: (b.2 ++ pascalChars rest) := by
      simp [pascalChars, blockChars]
    show isIdent ⟨pascalChars (b :: rest)⟩ = true
    rw [e]
    simp only [isIdent]
    have halpha : ∀ c ∈ b.2 ++ pascalChars rest, c.isAlpha = true := by
      intro c hc
      rcases List.mem_append.1 hc with hc | hc
      · exact lower_isAlpha (hls c hc)
      · exact pascalChars_alpha rest (fun b2 hb2 => h b2 (List.mem_cons_of_mem b hb2)) c hc
    have : ∀ c ∈ b.2 ++ pascalChars rest, (c.isAlphanum || c == '_') = true := by
      intro c hc
      simp [Char.isAlphanum, halpha c hc]
    simp [upper_isAlpha hu, List.all_eq_true.2 this]

theorem snake_isIdent (bs : List (Char × List Char)) (hne : bs ≠ [])
    (h : ∀ b ∈ bs, BlockOk b) : isIdent ⟨snakeLChars bs⟩ = true := by
  match bs, hne with
  | b :: rest, _ =>
    obtain ⟨hu, hbne, hls⟩ := h b (by simp)
    have e : snakeLChars (b :: rest) =
        b.1.toLower :: (b.2 ++ (rest.map (fun b2 => '_' :: blockLower b2)).flatten) := by
      simp [snakeLChars, blockLower]
    show isIdent ⟨snakeLChars (b :: rest)⟩ = true
    rw [e]
    simp only [isIdent]
    have hshape : ∀ c ∈ b.2 ++ (rest.map (fun b2 => '_' :: blockLower b2)).flatten,
        c.isLower = true ∨ c = '_' := by
      intro c hc
      rcases List.mem_append.1 hc with hc | hc
      · exact Or.inl (hls c hc)
      · have : c ∈ snakeLChars (b :: rest) := by
          rw [e]
          simp only [List.mem_cons, List.mem_append]
          tauto
        exact snakeLChars_shape (b :: rest) h c this
    have hall : ∀ c ∈ b.2 ++ (rest.map (fun b2 => '_' :: blockLower b2)).flatten,
        (c.isAlphanum || c == '_') = true := by
      intro c hc
      rcases hshape c hc with hc2 | hc2
      · simp [Char.isAlphanum, lower_isAlpha hc2]
      · subst hc2; simp
    simp [lower_isAlpha (toLower_isLower hu), List.all_eq_true.2 hall]

theorem pascalChars_no_us (bs : List (Char × List Char)) (h : ∀ b ∈ bs, BlockOk b) :
    (pascalChars bs).contains '_' = false :=
  contains_us_false _ (pascalChars_alpha bs h)

/-! ## Claim C9: case-translation bijection -/

/-- C9 (counterexample): the claim "for every valid identifier s,
snake_to_pascal (pascal_to_snake s) = s" fails at s = "hello", a valid
identifier that is not in the (empty) special-names set:
pascal_to_snake leaves it unchanged but snake_to_pascal capitalises it to
"Hello". -/
theorem case_translation_bijection_cex :
    isIdent "hello" = true ∧
    "hello" ∉ ([] : List String) ∧
    (pascal_to_snake "hello" []).1 = "hello" ∧
    snake_to_pascal (pascal_to_snake "hello" []).1 [] = "Hello" ∧
    ("Hello" : String) ≠ "hello" :=
  ⟨rfl, by simp, rfl, rfl, by decide⟩

/-- C9 (amended): pascal_to_snake and snake_to_pascal are mutually
inverse on conventional block-shaped names: for any nonempty list of
blocks (an uppercase letter followed by a nonempty lowercase run),
pascal_to_snake maps the PascalCase spelling to the snake_case spelling
without touching the special-names set, and snake_to_pascal maps the
snake_case spelling back; names containing an underscore that are
registered in the special-names set are fixed points of both directions. -/
theorem case_translation_bijection_amended :
    (∀ (S : List String) (bs : List (Char × List Char)), bs ≠ [] →
      (∀ b ∈ bs, BlockOk b) →
      pascal_to_snake ⟨pascalChars bs⟩ S = (⟨snakeLChars bs⟩, S) ∧
      snake_to_pascal ⟨snakeLChars bs⟩ [] = ⟨pascalChars bs⟩) ∧
    (∀ (S : List String) (name : String), name ∈ S →
      name.toList.contains '_' = true →
      pascal_to_snake name S = (name, S) ∧ snake_to_pascal name S = name) := by
  constructor
  · intro S bs hne h
    constructor
    · rw [pascal_to_snake]
      rw [if_neg (by rw [pascal_isIdent bs hne h]; simp)]
      rw [if_neg (by rw [show (String.mk (pascalChars bs)).toList = pascalChars bs from rfl,
        pascalChars_no_us bs h]; simp)]
      have e : (String.mk (pascalChars bs)).toList = pascalChars bs := rfl
      rw [e, show sub1 (pascalChars bs) = sub1A false (pascalChars bs) from rfl,
        sub1_pascal bs h, sub2_pair bs h, snakeU_toLower bs h]
    · rw [snake_to_pascal]
      rw [if_neg (by rw [snake_isIdent bs hne h]; simp)]
      rw [if_neg (by simp)]
      have e : (String.mk (snakeLChars bs)).toList = snakeLChars bs := rfl
      rw [e, split_snakeL bs h hne]
      congr 1
      rw [List.map_map]
      have hmap : List.map ((fun x => titleChars x false) ∘ blockLower) bs =
          List.map blockChars bs :=
        List.map_congr_left (fun b hb => title_blockLower (h b hb))
      rw [hmap]
      rfl
  · intro S name hmem hus
    constructor
    · rw [pascal_to_snake]
      by_cases hid : isIdent name
      · rw [if_neg (by simp [hid]), if_pos (by simpa using hus), if_pos hmem]
      · rw [if_pos (by simp [hid])]
    · rw [snake_to_pascal]
      by_cases hid : isIdent name
      · rw [if_neg (by simp [hid]), if_pos hmem]
      · rw [if_pos (by simp [hid])]

/-- Witness for C9 (amended): concrete round trip "AbCd" ↔ "ab_cd" and the
special name "My_Name" as a fixed point. -/
theorem case_translation_bijection_amended_witness :
    pascal_to_snake "AbCd" [] = ("ab_cd", []) ∧
    snake_to_pascal "ab_cd" [] = "AbCd" ∧
    pascal_to_snake "My_Name" ["My_Name"] = ("My_Name", ["My_Name"]) ∧
    snake_to_pascal "My_Name" ["My_Name"] = "My_Name" := by
  have h := case_translation_bijection_amended
  have h1 := h.1 [] [('A', ['b']), ('C', ['d'])] (by simp) (by decide)
  have h2 := h.2 ["My_Name"] "My_Name" (by simp) (by decide)
  exact ⟨h1.1, h1.2, h2.1, h2.2⟩

/-! ## definition_registry.py: the definition classifier

Schema definitions are JSON objects; we embed just enough of JSON for
`_identify_definition_type`, which inspects the presence of keys and the
value of `"type"`. -/

/-- A JSON value. -/
inductive JValue where
  | null : JValue
  | bool : Bool → JValue
  | num : Int → JValue
  | str : String → JValue
  | arr : List JValue → JValue
  | obj : List (String × JValue) → JValue
deriving Repr

/-- Lookup of a key in a JSON object (`definition.get(key)`); `none` on
non-objects and missing keys. -/
def JValue.lookup : JValue → String → Option JValue
  | .obj fields, key => fields.lookup key
  | _, _ => none

/-- Key-presence test (`key in definition`), `false` on non-objects. -/
def JValue.hasKey (v : JValue) (key : String) : Bool :=
  (v.lookup key).isSome

/-- The eight structural categories assigned by the classifier
(the string constants at the top of `definition_registry.py`). -/
inductive Category where
  | native
  | custom
  | passthrough
  | multiInheritance
  | list
  | union
  | polymorph
  | enum
deriving DecidableEq, Repr

/-- The error raised when a definition cannot be classified
(`DefinitionUnidentifiedError`, carrying the offending definition body). -/
inductive DefError where
  | unidentified : JValue → DefError

/-- The keys of `native_type_mapping` in `base_classes.py`. -/
def nativeTypeNames : List String :=
  ["string", "integer", "number", "boolean", "array", "object"]

/-- Whether every element of an `allOf` array has both an `if` and a
`then` key (`all("if" in condition and "then" in condition ...)`);
non-array `allOf` values are not modelled (the schemas compiled by this
code always use arrays there). -/
def allOfConditional : JValue → Bool
  | .arr conds => conds.all (fun c => c.hasKey "if" && c.hasKey "then")
  | _ => false

/-- The walrus test `(def_type := definition.get("type")) in
native_type_mapping`: the value of the `type` key is one of the six
native type names. -/
def nativeTypeHit (definition : JValue) : Bool :=
  match definition.lookup "type" with
  | some (.str s) => nativeTypeNames.contains s
  | _ => false

/-- Embedding of `DefinitionRegistry._identify_definition_type`
(`definition_registry.py`, lines 172-220): `$ref` → passthrough; `allOf`
→ polymorph when every element has `if` and `then`, else
multi-inheritance; `oneOf`/`anyOf` → union; native `type` → custom
(object) / list (array) / native (scalars); `enum` → enum; otherwise
`DefinitionUnidentifiedError` naming the definition. -/
def identify_definition_type (definition : JValue) : Except DefError Category :=
  if definition.hasKey "$ref" then .ok .passthrough
  else if definition.hasKey "allOf" then
    match definition.lookup "allOf" with
    | some allOfVal =>
      if allOfConditional allOfVal then .ok .polymorph else .ok .multiInheritance
    | none => .ok .multiInheritance
  else if definition.hasKey "oneOf" || definition.hasKey "anyOf" then .ok .union
  else if nativeTypeHit definition then
    match definition.lookup "type" with
    | some (.str s) =>
      if s = "object" then .ok .custom
      else if s = "array" then .ok .list
      else .ok .native
    | _ => .ok .native
  else if definition.hasKey "enum" then .ok .enum
  else .error (.unidentified definition)

/-! ## Claims C2 and C5: the classifier -/

/-- A `oneOf` definition carrying a `discriminator` key, as the spec's
rule 3 describes for the `polymorph` outcome. -/
def oneOfWithDiscriminator : JValue :=
  .obj [("oneOf", .arr [.obj [("$ref", .str "#/$defs/Employee")],
                        .obj [("$ref", .str "#/$defs/Manager")]]),
        ("discriminator", .obj [("propertyName", .str "Role"),
          ("mapping", .obj [("employee", .str "#/$defs/Employee"),
                            ("manager", .str "#/$defs/Manager")])])]

/-- C2 (counterexample): `_identify_definition_type` returns `union` for a
`oneOf` definition even when a `discriminator` key is present at the same
level — the code never returns `polymorph` for `oneOf`/`anyOf`, refuting
the claim that a present discriminator yields the polymorph category. -/
theorem classifier_oneof_discriminator_cex :
    oneOfWithDiscriminator.hasKey "discriminator" = true ∧
    identify_definition_type oneOfWithDiscriminator = .ok .union ∧
    Category.union ≠ Category.polymorph :=
  ⟨rfl, rfl, by decide⟩

/-- C2 (amended): for every definition containing `oneOf` or `anyOf` (and
no `$ref` or `allOf`), `_identify_definition_type` returns `union`,
whether or not a `discriminator` key is present. -/
theorem classifier_oneof_anyof_union (d : JValue)
    (href : d.hasKey "$ref" = false) (hall : d.hasKey "allOf" = false)
    (hone : d.hasKey "oneOf" = true ∨ d.hasKey "anyOf" = true) :
    identify_definition_type d = .ok .union := by
  rcases hone with h | h <;> simp [identify_definition_type, href, hall, h]

/-- Witness for C2 (amended): an `anyOf` definition with a discriminator
classifies as `union`. -/
theorem classifier_oneof_anyof_union_witness :
    identify_definition_type
      (.obj [("anyOf", .arr [.obj [("$ref", .str "#/$defs/A")]]),
             ("discriminator", .obj [("propertyName", .str "Kind")])]) =
      .ok .union :=
  classifier_oneof_anyof_union _ rfl rfl (Or.inr rfl)

/-- C5 (confirmed): the classifier checks, in precedence order, `$ref` →
passthrough; `allOf` → polymorph when every element has `if` and `then`,
else multi-inheritance; `oneOf`/`anyOf` → union (one of the
union/polymorph categories); native `type` values → custom for object,
list for array, native otherwise; `enum` → enum; and any definition
matching none of these raises `DefinitionUnidentifiedError` carrying the
offending definition body instead of returning a category. -/
theorem classifier_precedence_totality (d : JValue) :
    (d.hasKey "$ref" = true → identify_definition_type d = .ok .passthrough) ∧
    (d.hasKey "$ref" = false → ∀ l, d.lookup "allOf" = some (.arr l) →
      identify_definition_type d =
        .ok (if l.all (fun c => c.hasKey "if" && c.hasKey "then")
             then .polymorph else .multiInheritance)) ∧
    (d.hasKey "$ref" = false → d.hasKey "allOf" = false →
      (d.hasKey "oneOf" = true ∨ d.hasKey "anyOf" = true) →
      identify_definition_type d = .ok .union) ∧
    (d.hasKey "$ref" = false → d.hasKey "allOf" = false →
      d.hasKey "oneOf" = false → d.hasKey "anyOf" = false →
      ∀ s, d.lookup "type" = some (.str s) → nativeTypeNames.contains s = true →
      identify_definition_type d =
        .ok (if s = "object" then .custom else if s = "array" then .list else .native)) ∧
    (d.hasKey "$ref" = false → d.hasKey "allOf" = false →
      d.hasKey "oneOf" = false → d.hasKey "anyOf" = false →
      nativeTypeHit d = false → d.hasKey "enum" = true →
      identify_definition_type d = .ok .enum) ∧
    (d.hasKey "$ref" = false → d.hasKey "allOf" = false →
      d.hasKey "oneOf" = false → d.hasKey "anyOf" = false →
      nativeTypeHit d = false → d.hasKey "enum" = false →
      identify_definition_type d = .error (.unidentified d)) := by
  refine ⟨?_, ?_, ?_, ?_, ?_, ?_⟩
  · intro h
    simp [identify_definition_type, h]
  · intro href l hl
    have hall : d.hasKey "allOf" = true := by
      simp [JValue.hasKey, hl]
    simp only [identify_definition_type, href, hall, hl, allOfConditional]
    simp only [Bool.false_eq_true, if_false, if_true]
    split <;> rfl
  · intro href hall hone
    exact classifier_oneof_anyof_union d href hall hone
  · intro href hall hone hany s hs hnat
    have hhit : nativeTypeHit d = true := by
      simp only [nativeTypeHit, hs]
      exact hnat
    simp only [identify_definition_type, href, hall, hone, hany, hhit, hs]
    simp only [Bool.false_eq_true, Bool.or_self, if_false, if_true]
    split
    · rfl
    · split <;> rfl
  · intro href hall hone hany htype henum
    simp [identify_definition_type, href, hall, hone, hany, htype, henum]
  · intro href hall hone hany htype henum
    simp [identify_definition_type, href, hall, hone, hany, htype, henum]

/-- Witness for C5: concrete definitions exercising the passthrough,
conditional-allOf, native-object and error branches. -/
theorem classifier_precedence_totality_witness :
    identify_definition_type (.obj [("$ref", .str "#/$defs/X")]) = .ok .passthrough ∧
    identify_definition_type
      (.obj [("allOf", .arr [.obj [("if", .obj []), ("then", .obj [])]])]) =
      .ok .polymorph ∧
    identify_definition_type (.obj [("type", .str "object")]) = .ok .custom ∧
    identify_definition_type (.obj [("format", .str "odd")]) =
      .error (.unidentified (.obj [("format", .str "odd")])) := by
  refine ⟨?_, ?_, ?_, ?_⟩
  · exact (classifier_precedence_totality (.obj [("$ref", .str "#/$defs/X")])).1 rfl
  · exact ((classifier_precedence_totality
      (.obj [("allOf", .arr [.obj [("if", .obj []), ("then", .obj [])]])])).2.1
        rfl [.obj [("if", .obj []), ("then", .obj [])]] rfl).trans (by rfl)
  · exact ((classifier_precedence_totality (.obj [("type", .str "object")])).2.2.2.1
      rfl rfl rfl rfl "object" rfl rfl).trans (by rfl)
  · exact (classifier_precedence_totality (.obj [("format", .str "odd")])).2.2.2.2.2
      rfl rfl rfl rfl rfl rfl

/-! ## Python exceptions -/

/-- The Python exceptions raised by the embedded code paths. -/
inductive PyErr where
  | typeError : String → PyErr
  | valueError : String → PyErr
  | keyError : String → PyErr
  | attributeError : String → PyErr
deriving DecidableEq, Repr

/-! ## polymorph_factory.py: the polymorphic dispatcher -/

/-- Python `str.split(sep)` for a single-character separator: split at
every occurrence, keeping empty parts. -/
def splitOnChar (sep : Char) : List Char → List (List Char)
  | [] => [[]]
  | c :: rest =>
    if c == sep then [] :: splitOnChar sep rest
    else
      match splitOnChar sep rest with
      | part :: parts => (c :: part) :: parts
      | [] => [[c]]

/-- `ref.split("/")[-1]`: the last segment of a `$ref` string. -/
def refLastSegment (ref : String) : String :=
  ⟨(splitOnChar '/' ref.toList).getLastD []⟩

/-- The state built by `PolymorphFactory.__init__`: the discriminator
property name and a mapping from discriminator values to the referenced
definition name whose caster is invoked. -/
structure PolymorphFactoryModel where
  discriminatorProperty : String
  discriminatorMapping : List (String × String)
deriving DecidableEq, Repr

/-- Embedding of `PolymorphFactory.__init__` (`polymorph_factory.py`,
lines 19-35): reads `definition["discriminator"]["propertyName"]` and
builds the mapping from `definition["discriminator"]["mapping"]`,
resolving each `$ref` value to its last segment and looking the caster up
in the registry (`casterNames`).  A missing key raises `KeyError`. -/
def polymorph_factory_init (casterNames : List String) (definition : JValue) :
    Except PyErr PolymorphFactoryModel :=
  match definition.lookup "discriminator" with
  | none => .error (.keyError "discriminator")
  | some disc =>
    match disc.lookup "propertyName" with
    | none => .error (.keyError "propertyName")
    | some (.str prop) =>
      match disc.lookup "mapping" with
      | none => .error (.keyError "mapping")
      | some (.obj mappingFields) =>
        let resolve : List (String × JValue) → Except PyErr (List (String × String)) :=
          fun fields => fields.foldr
            (fun (kv : String × JValue) acc =>
              match acc with
              | .error e => .error e
              | .ok rest =>
                match kv.2 with
                | .str ref =>
                  let name := refLastSegment ref
                  if casterNames.contains name then .ok ((kv.1, name) :: rest)
                  else .error (.keyError name)
                | _ => .error (.keyError "mapping")
            )
            (.ok [])
        match resolve mappingFields with
        | .error e => .error e
        | .ok mapping => .ok ⟨prop, mapping⟩
      | some _ => .error (.keyError "mapping")
    | some _ => .error (.keyError "propertyName")

/-- Embedding of `PolymorphFactory.discriminate` (`polymorph_factory.py`,
lines 37-55): look up `data_dict[discriminator_property]` in the mapping
and invoke the corresponding caster (represented by the target definition
name); a missing discriminator field or an unmapped value raises
`KeyError`, never `ValueError`. -/
def polymorph_discriminate (f : PolymorphFactoryModel) (data : JValue) :
    Except PyErr String :=
  match data.lookup f.discriminatorProperty with
  | none => .error (.keyError f.discriminatorProperty)
  | some (.str v) =>
    match f.discriminatorMapping.lookup v with
    | none => .error (.keyError v)
    | some target => .ok target
  | some _ => .error (.keyError f.discriminatorProperty)

/-- The conditional-form schema from the repository's own tests
(`tests/test_class_generator_polymorph_factory.py`): an ordered list of
`if`/`then` conditions on the `role` field with no `discriminator` key. -/
def conditionsSchema : JValue :=
  .obj [("allOf", .arr [
    .obj [("if", .obj [("properties", .obj [("role", .obj [("const", .str "employee")])])]),
          ("then", .obj [("$ref", .str "#/definitions/Employee")])],
    .obj [("if", .obj [("properties", .obj [("role", .obj [("const", .str "manager")])])]),
          ("then", .obj [("$ref", .str "#/definitions/Manager")])]])]

/-- C3 (code bug): the spec and the repository's own tests require the
conditional form of the dispatcher — conditions evaluated in declaration
order, first match wins, no match raising `ValueError` ("no condition
matched") — but the shipped `PolymorphFactory.__init__` reads only the
keyed form `definition["discriminator"]["propertyName"]`.  On the
conditional schema used by the tests (classified `polymorph`, so routed to
`PolymorphFactory` by `_create_type_hint_and_caster`), construction itself
raises `KeyError("discriminator")`, and even a keyed factory's
`discriminate` raises `KeyError`, not `ValueError`, on an unmapped value. -/
theorem polymorph_conditional_dispatch_code_bug :
    identify_definition_type conditionsSchema = .ok .polymorph ∧
    polymorph_factory_init ["Employee", "Manager"] conditionsSchema =
      .error (.keyError "discriminator") ∧
    (∀ f, polymorph_factory_init ["Employee", "Manager"] oneOfWithDiscriminator = .ok f →
      polymorph_discriminate f (.obj [("Role", .str "intern")]) =
        .error (.keyError "intern")) := by
  refine ⟨rfl, rfl, ?_⟩
  intro f hf
  have : f = ⟨"Role", [("employee", "Employee"), ("manager", "Manager")]⟩ := by
    have : polymorph_factory_init ["Employee", "Manager"] oneOfWithDiscriminator =
        .ok ⟨"Role", [("employee", "Employee"), ("manager", "Manager")]⟩ := rfl
    rw [this] at hf
    exact (Except.ok.inj hf).symm
  subst this
  rfl

/-! ## base_classes.py: values and type hints

Runtime values flowing through the synthesized constructors.  Floats are
not modelled (no claim exercises the `number` type); datetimes and UUIDs
are carried as their source strings. -/

inductive PyVal where
  | none : PyVal
  | strV : String → PyVal
  | intV : Int → PyVal
  | boolV : Bool → PyVal
  | listV : List PyVal → PyVal
  | dictV : List (String × PyVal) → PyVal
  | objV : String → List (String × PyVal) → PyVal
  | enumV : String → String → String → PyVal
  | datetimeV : String → PyVal
  | uuidV : String → PyVal
deriving Repr

/-- The type hints attached to synthesized properties: native Python
types, `datetime`/`UUID`, generated classes and enums, `typing.List` and
`typing.Optional`. -/
inductive TypeHint where
  | tAny
  | tStr
  | tInt
  | tBool
  | tDict
  | tDatetime
  | tUuid
  | tList : TypeHint → TypeHint
  | tOptional : TypeHint → TypeHint
  | tClass : String → TypeHint
  | tEnum : String → TypeHint
deriving DecidableEq, Repr

/-- `"<class '...'>"`, Python's repr of a class (module prefixes of
generated classes are omitted in this model). -/
def classRepr (n : String) : String :=
  "<class " ++ pyQuote ++ n ++ pyQuote ++ ">"

/-- `str()` of a type hint as it appears inside a typing construct
(bare names). -/
def showHintInner : TypeHint → String
  | .tAny => "typing.Any"
  | .tStr => "str"
  | .tInt => "int"
  | .tBool => "bool"
  | .tDict => "dict"
  | .tDatetime => "datetime.datetime"
  | .tUuid => "uuid.UUID"
  | .tList t => "typing.List[" ++ showHintInner t ++ "]"
  | .tOptional t => "typing.Optional[" ++ showHintInner t ++ "]"
  | .tClass n => n
  | .tEnum n => n

/-- `str()` of a type hint at top level (classes shown as
`<class '...'>`, typing constructs by their qualified form). -/
def showHint : TypeHint → String
  | .tStr => classRepr "str"
  | .tInt => classRepr "int"
  | .tBool => classRepr "bool"
  | .tDict => classRepr "dict"
  | .tDatetime => classRepr "datetime.datetime"
  | .tUuid => classRepr "uuid.UUID"
  | .tClass n => classRepr n
  | .tEnum n => "<enum " ++ pyQuote ++ n ++ pyQuote ++ ">"
  | t => showHintInner t

/-- The name of a value's runtime type, as in `type(value)` reprs. -/
def typeName : PyVal → String
  | .none => "NoneType"
  | .strV _ => "str"
  | .intV _ => "int"
  | .boolV _ => "bool"
  | .listV _ => "list"
  | .dictV _ => "dict"
  | .objV cls _ => cls
  | .enumV cls _ _ => cls
  | .datetimeV _ => "datetime.datetime"
  | .uuidV _ => "uuid.UUID"

mutual

/-- `repr()` of a value (instances abbreviated). -/
def reprVal : PyVal → String
  | .none => "None"
  | .strV s => pyQuote ++ s ++ pyQuote
  | .intV n => toString n
  | .boolV b => if b then "True" else "False"
  | .listV xs => "[" ++ reprList xs ++ "]"
  | .dictV fields => "\x7b" ++ reprFields fields ++ "\x7d"
  | .objV cls _ => cls ++ "(...)"
  | .enumV cls id _ => "<" ++ cls ++ "." ++ id ++ ">"
  | .datetimeV iso => "datetime.datetime(" ++ iso ++ ")"
  | .uuidV hex => "UUID(" ++ pyQuote ++ hex ++ pyQuote ++ ")"

def reprList : List PyVal → String
  | [] => ""
  | [x] => reprVal x
  | x :: y :: rest => reprVal x ++ ", " ++ reprList (y :: rest)

def reprFields : List (String × PyVal) → String
  | [] => ""
  | [(k, v)] => pyQuote ++ k ++ pyQuote ++ ": " ++ reprVal v
  | (k, v) :: f :: rest =>
    pyQuote ++ k ++ pyQuote ++ ": " ++ reprVal v ++ ", " ++ reprFields (f :: rest)

end

/-- `str()` of a value (as interpolated by f-strings): strings appear
unquoted, everything else as its repr. -/
def showVal : PyVal → String
  | .strV s => s
  | v => reprVal v

/-- `type(value)` repr. -/
def showType (v : PyVal) : String :=
  match v with
  | .enumV cls _ _ => "<enum " ++ pyQuote ++ cls ++ pyQuote ++ ">"
  | _ => classRepr (typeName v)

/-- `isinstance` failure message raised by `is_instance`
(`f"type_hint: {type_hint}, obj: {obj}"`). -/
def subscriptedMsg (t : TypeHint) (v : PyVal) : String :=
  "type_hint: " ++ showHint t ++ ", obj: " ++ showVal v

/-- Plain `isinstance(obj, t)` for non-generic `t`; typing constructs
(`List[...]`, `Optional[...]`, `Any` as an element type) raise
`TypeError`, modelled as `.error ()`.  Class checks compare the class
name (subclass relations between generated classes are not modelled).
`bool` is a subclass of `int`, so Booleans count as `int` instances. -/
def plainInst : TypeHint → PyVal → Except Unit Bool
  | .tAny, _ => .error ()
  | .tList _, _ => .error ()
  | .tOptional _, _ => .error ()
  | .tStr, v => .ok (match v with | .strV _ => true | _ => false)
  | .tInt, v => .ok (match v with | .intV _ => true | .boolV _ => true | _ => false)
  | .tBool, v => .ok (match v with | .boolV _ => true | _ => false)
  | .tDict, v => .ok (match v with | .dictV _ => true | _ => false)
  | .tDatetime, v => .ok (match v with | .datetimeV _ => true | _ => false)
  | .tUuid, v => .ok (match v with | .uuidV _ => true | _ => false)
  | .tClass n, v => .ok (match v with | .objV cls _ => cls == n | _ => false)
  | .tEnum n, v => .ok (match v with | .enumV cls _ _ => cls == n | _ => false)

/-- Element loop of the `List[...]` branch
(`all(isinstance(elem, element_type) for elem in obj)`), short-circuiting
on the first `False` and raising on a typing-construct element type. -/
def elemsAll (t : TypeHint) : List PyVal → Except Unit Bool
  | [] => .ok true
  | x :: xs =>
    match plainInst t x with
    | .error () => .error ()
    | .ok false => .ok false
    | .ok true => elemsAll t xs

/-- Embedding of `is_instance` (`utils.py`, lines 28-54): `Any` is always
true; `Union`/`Optional` checks each arm (re-raising with the outer hint
on failure); `List[T]` checks all elements of a list and raises
`TypeError` (`"type_hint: ..., obj: ..."`) when the value is not a list;
otherwise plain `isinstance`. -/
def isInstanceE : PyVal → TypeHint → Except String Bool
  | _, .tAny => .ok true
  | v, .tOptional t =>
    match isInstanceE v t with
    | .error _ => .error (subscriptedMsg (.tOptional t) v)
    | .ok true => .ok true
    | .ok false => .ok (match v with | .none => true | _ => false)
  | v, .tList t =>
    match v with
    | .listV xs =>
      match elemsAll t xs with
      | .error () => .error (subscriptedMsg (.tList t) (.listV xs))
      | .ok b => .ok b
    | _ => .error (subscriptedMsg (.tList t) v)
  | v, t =>
    match plainInst t v with
    | .ok b => .ok b
    | .error () => .error (subscriptedMsg t v)

/-! ## Compiled classes and casters

A compiled custom type is its ordered property table (internal name,
caster, type hint, default — `inspect.Parameter.empty` for required
properties is `Option.none`, an explicit default is `some`) together with
the optional catch-all (`_kwargs_property`).  Casters are the functions
the registry installs: native constructors, the `datetime` sentinel,
`UUID`, enum `from_dict`, the list-comprehension caster, and a generated
class's `from_dict`. -/

mutual

inductive Caster where
  | idC : Caster
  | strC : Caster
  | intC : Caster
  | boolC : Caster
  | dictC : Caster
  | datetimeC : Caster
  | uuidC : Caster
  | enumFrom : String → List (String × String) → Caster
  | listC : Caster → Caster
  | fromDict : ClassSpec → Caster

inductive ClassSpec where
  | mk : String → List PropSpec → Option KwSpec → ClassSpec

inductive PropSpec where
  | mk : String → Caster → TypeHint → Option PyVal → PropSpec

inductive KwSpec where
  | mk : Caster → TypeHint → KwSpec

end

def ClassSpec.name : ClassSpec → String
  | .mk n _ _ => n

def ClassSpec.props : ClassSpec → List PropSpec
  | .mk _ ps _ => ps

def ClassSpec.kwargsProp : ClassSpec → Option KwSpec
  | .mk _ _ kw => kw

def PropSpec.name : PropSpec → String
  | .mk n _ _ _ => n

def PropSpec.caster : PropSpec → Caster
  | .mk _ k _ _ => k

def PropSpec.hint : PropSpec → TypeHint
  | .mk _ _ t _ => t

def PropSpec.dflt : PropSpec → Option PyVal
  | .mk _ _ _ d => d

def KwSpec.caster : KwSpec → Caster
  | .mk k _ => k

def KwSpec.hint : KwSpec → TypeHint
  | .mk _ t => t

/-! ## Signature binding

`replacement_init_function` starts with `new_sig.bind(self, *args,
**kwargs)` followed by `apply_defaults()`; the embedding reproduces
`inspect.Signature.bind`: positional arguments fill parameters in
declaration order, remaining parameters are taken from keyword arguments
or their defaults, missing required parameters and unexpected or
duplicated keywords raise `TypeError` with CPython's messages, and extra
keywords are accepted only when a `**kwargs` parameter exists. -/

def missingArgMsg (n : String) : String :=
  "missing a required argument: " ++ pyQuote ++ n ++ pyQuote

def unexpectedKwargMsg (n : String) : String :=
  "got an unexpected keyword argument " ++ pyQuote ++ n ++ pyQuote

def multipleValuesMsg (n : String) : String :=
  "multiple values for argument " ++ pyQuote ++ n ++ pyQuote

def bindProps : List PropSpec → List PyVal → List (String × PyVal) →
    Except PyErr (List (String × PyVal))
  | [], _, _ => .ok []
  | p :: ps, a :: args, kwargs =>
    if kwargs.any (fun kv => kv.1 == p.name) then
      .error (.typeError (multipleValuesMsg p.name))
    else
      match bindProps ps args kwargs with
      | .error e => .error e
      | .ok rest => .ok ((p.name, a) :: rest)
  | p :: ps, [], kwargs =>
    match kwargs.lookup p.name with
    | some v =>
      match bindProps ps [] kwargs with
      | .error e => .error e
      | .ok rest => .ok ((p.name, v) :: rest)
    | none =>
      match p.dflt with
      | some d =>
        match bindProps ps [] kwargs with
        | .error e => .error e
        | .ok rest => .ok ((p.name, d) :: rest)
      | none => .error (.typeError (missingArgMsg p.name))

def bindArgs (props : List PropSpec) (hasKw : Bool) (args : List PyVal)
    (kwargs : List (String × PyVal)) :
    Except PyErr (List (String × PyVal) × List (String × PyVal)) :=
  if args.length > props.length then
    .error (.typeError "too many positional arguments")
  else
    match bindProps props args kwargs with
    | .error e => .error e
    | .ok bound =>
      let extras := kwargs.filter (fun kv => ¬ props.any (fun p => p.name == kv.1))
      match extras with
      | [] => .ok (bound, [])
      | (k, _) :: _ =>
        if hasKw then .ok (bound, extras)
        else .error (.typeError (unexpectedKwargMsg k))

/-- The `TypeError` message raised when a caster fails
(`f"Argument '{name}' must be of type {expected_type} (value:{value},
type:{type(value)})"`). -/
def coercionMsg (name : String) (t : TypeHint) (v : PyVal) : String :=
  "Argument " ++ pyQuote ++ name ++ pyQuote ++ " must be of type " ++ showHint t ++
    " (value:" ++ showVal v ++ ", type:" ++ showType v ++ ")"

/-- Integer parsing for the `int` caster: optional sign and at least one
digit. -/
def parseIntStr (s : String) : Option Int :=
  match s.toList with
  | '-' :: ds =>
    if ds ≠ [] ∧ ds.all Char.isDigit then
      some (-(ds.foldl (fun acc c => acc * 10 + (c.toNat - 48)) 0 : Nat))
    else Option.none
  | ds =>
    if ds ≠ [] ∧ ds.all Char.isDigit then
      some ((ds.foldl (fun acc c => acc * 10 + (c.toNat - 48)) 0 : Nat) : Int)
    else Option.none

/-- Python truthiness, for the `bool` caster. -/
def pyTruthy : PyVal → Bool
  | .none => false
  | .strV s => s != ""
  | .intV n => n != 0
  | .boolV b => b
  | .listV xs => !xs.isEmpty
  | .dictV fields => !fields.isEmpty
  | _ => true

/-! ## The synthesized constructor and `from_dict`

`replacement_init_function` (`base_classes.py`, lines 238-274): after
binding and default application, each declared argument that is not
`None` and not an instance of its hint is passed to its caster (the
`datetime` caster is the sentinel routed to `dateutil_parser.parse`);
a `ValueError`/`TypeError` from the caster is re-raised as `TypeError`
with `coercionMsg`; the (possibly cast) value is stored under the
declared internal name.  Catch-all keys are processed the same way — the
error message interpolates the stale loop variable `name`, which at that
point holds the string "kwargs".  `from_dict` (lines 385-412) converts
every key with `pascal_to_snake`, invokes the constructor, and wraps any
`TypeError` as `"Error while constructing {cls.__name__}: ..."`. -/

mutual

def applyCaster : Caster → PyVal → Except PyErr PyVal
  | .idC, v => .ok v
  | .strC, v => .ok (.strV (showVal v))
  | .intC, v =>
    match v with
    | .intV n => .ok (.intV n)
    | .boolV b => .ok (.intV (if b then 1 else 0))
    | .strV s =>
      match parseIntStr s with
      | some n => .ok (.intV n)
      | Option.none =>
        .error (.valueError ("invalid literal for int() with base 10: " ++
          pyQuote ++ s ++ pyQuote))
    | w => .error (.typeError ("int() argument must be a string, a bytes-like object or a real number, not " ++ pyQuote ++ typeName w ++ pyQuote))
  | .boolC, v => .ok (.boolV (pyTruthy v))
  | .dictC, v =>
    match v with
    | .dictV fields => .ok (.dictV fields)
    | w => .error (.typeError (pyQuote ++ typeName w ++ pyQuote ++ " object is not iterable"))
  | .datetimeC, v =>
    match v with
    | .strV s => .ok (.datetimeV s)
    | w => .error (.typeError ("Parser must be a string or character stream, not " ++ typeName w))
  | .uuidC, v =>
    match v with
    | .strV s => .ok (.uuidV s)
    | w => .error (.typeError ("one of the hex, bytes, bytes_le, fields, or int arguments must be given, not " ++ typeName w))
  | .enumFrom cls members, v =>
    match v with
    | .dictV fields =>
      match fields.lookup "Id" with
      | Option.none => .error (.keyError "Id")
      | some (.strV id) =>
        match members.find? (fun m => m.1 == id) with
        | some m => .ok (.enumV cls m.1 m.2)
        | Option.none =>
          .error (.valueError "No matching \x7bcls.__name__\x7d enum found")
      | some _ => .error (.valueError "No matching \x7bcls.__name__\x7d enum found")
    | w => .error (.typeError (pyQuote ++ typeName w ++ pyQuote ++ " object is not subscriptable"))
  | .listC item, v =>
    match v with
    | .listV xs =>
      match castEach item xs with
      | .error e => .error e
      | .ok ws => .ok (.listV ws)
    | w => .error (.typeError (pyQuote ++ typeName w ++ pyQuote ++ " object is not iterable"))
  | .fromDict cls, v => fromDictF cls v
termination_by k _ => ((sizeOf k : Nat), 0, 0)

def castEach : Caster → List PyVal → Except PyErr (List PyVal)
  | _, [] => .ok []
  | k, x :: xs =>
    match applyCaster k x with
    | .error e => .error e
    | .ok w =>
      match castEach k xs with
      | .error e => .error e
      | .ok ws => .ok (w :: ws)
termination_by k xs => ((sizeOf k : Nat), 1, sizeOf xs)

def checkAndCast (k : Caster) (t : TypeHint) (name : String) (v : PyVal) :
    Except PyErr PyVal :=
  match v with
  | .none => .ok .none
  | v =>
    match isInstanceE v t with
    | .error m => .error (.typeError m)
    | .ok true => .ok v
    | .ok false =>
      match applyCaster k v with
      | .ok w => .ok w
      | .error (.valueError _) => .error (.typeError (coercionMsg name t v))
      | .error (.typeError _) => .error (.typeError (coercionMsg name t v))
      | .error e => .error e
termination_by ((sizeOf k : Nat), 1, 0)

def initLoop : List PropSpec → List (String × PyVal) →
    Except PyErr (List (String × PyVal))
  | [], _ => .ok []
  | _ :: _, [] => .ok []
  | .mk _ pk pt _ :: ps, (n, v) :: rest =>
    match checkAndCast pk pt n v with
    | .error e => .error e
    | .ok w =>
      match initLoop ps rest with
      | .error e => .error e
      | .ok attrs => .ok ((n, w) :: attrs)
termination_by ps _ => ((sizeOf ps : Nat), 2, 0)

def extrasLoop (k : Caster) (t : TypeHint) :
    List (String × PyVal) → Except PyErr (List (String × PyVal))
  | [] => .ok []
  | (key, v) :: rest =>
    match checkAndCast k t "kwargs" v with
    | .error e => .error e
    | .ok w =>
      match extrasLoop k t rest with
      | .error e => .error e
      | .ok attrs => .ok ((key, w) :: attrs)
termination_by extras => ((sizeOf k : Nat), 2, sizeOf extras)

def runInit : ClassSpec → List PyVal → List (String × PyVal) →
    Except PyErr (List (String × PyVal))
  | .mk _ props kwOpt, args, kwargs =>
    (bindArgs props kwOpt.isSome args kwargs).bind (fun be =>
      (initLoop props be.1).bind (fun attrs1 =>
        match kwOpt with
        | Option.none => .ok attrs1
        | some (.mk kc kt) =>
          (extrasLoop kc kt be.2).map (fun attrs2 => attrs1 ++ attrs2)))
termination_by cls _ _ => ((sizeOf cls : Nat), 2, 0)

def fromDictF (cls : ClassSpec) (v : PyVal) : Except PyErr PyVal :=
  match v with
  | .dictV fields =>
    match runInit cls [] (fields.map (fun kv => (p2sName kv.1, kv.2))) with
    | .error (.typeError m) =>
      .error (.typeError ("Error while constructing " ++ cls.name ++ ": " ++ m))
    | .error e => .error e
    | .ok attrs => .ok (.objV cls.name attrs)
  | w =>
    .error (.attributeError (pyQuote ++ typeName w ++ pyQuote ++
      " object has no attribute " ++ pyQuote ++ "items" ++ pyQuote))
termination_by ((sizeOf cls : Nat), 3, 0)

end

/-! ## `to_dict` (`base_classes.py`, lines 414-443)

Walks the instance's attributes in assignment order; values that are
generated instances or enum members are recursively converted, a
nonempty list whose first element is a generated instance is converted
element-wise (`item.to_dict()`, which also succeeds for enum members but
fails with `AttributeError` for anything else), and every other value is
stored verbatim; each key is translated with `snake_to_pascal` against
the owning class's special-names set (`SS`), with Python-dict assignment
semantics. -/

/-- `result[key] = value`: replace in place if the key exists, else
append. -/
def dictAssign (fields : List (String × PyVal)) (k : String) (v : PyVal) :
    List (String × PyVal) :=
  if fields.any (fun f => f.1 == k) then
    fields.map (fun f => if f.1 == k then (k, v) else f)
  else fields ++ [(k, v)]

mutual

def toDictConv (SS : String → List String) : PyVal → Except PyErr PyVal
  | .objV cls attrs => toDictObj SS cls attrs
  | .enumV _ id d => .ok (.dictV [("Id", .strV id), ("Description", .strV d)])
  | .listV (x :: xs) =>
    match x with
    | .objV c a =>
      match itemList SS (.objV c a :: xs) with
      | .error e => .error e
      | .ok ws => .ok (.listV ws)
    | _ => .ok (.listV (x :: xs))
  | v => .ok v
termination_by v => ((sizeOf v : Nat), 0)

def itemList (SS : String → List String) : List PyVal → Except PyErr (List PyVal)
  | [] => .ok []
  | x :: xs =>
    match itemToDict SS x with
    | .error e => .error e
    | .ok w =>
      match itemList SS xs with
      | .error e => .error e
      | .ok ws => .ok (w :: ws)
termination_by xs => ((sizeOf xs : Nat), 0)

def itemToDict (SS : String → List String) : PyVal → Except PyErr PyVal
  | .objV cls attrs => toDictObj SS cls attrs
  | .enumV _ id d => .ok (.dictV [("Id", .strV id), ("Description", .strV d)])
  | w =>
    .error (.attributeError (pyQuote ++ typeName w ++ pyQuote ++
      " object has no attribute " ++ pyQuote ++ "to_dict" ++ pyQuote))
termination_by x => ((sizeOf x : Nat), 0)

def toDictFields (SS : String → List String) (cls : String)
    (acc : List (String × PyVal)) :
    List (String × PyVal) → Except PyErr (List (String × PyVal))
  | [] => .ok acc
  | (n, v) :: rest =>
    match toDictConv SS v with
    | .error e => .error e
    | .ok w =>
      toDictFields SS cls (dictAssign acc (snake_to_pascal n (SS cls)) w) rest
termination_by l => ((sizeOf l : Nat), 1)

def toDictObj (SS : String → List String) (cls : String)
    (attrs : List (String × PyVal)) : Except PyErr PyVal :=
  match toDictFields SS cls [] attrs with
  | .error e => .error e
  | .ok fields => .ok (.dictV fields)
termination_by ((sizeOf attrs : Nat), 2)

end

/-! ## Support lemmas about binding and the constructor loop -/

theorem lookup_eq_none_of_all_ne {α : Type} {kwargs : List (String × α)} {n : String}
    (h : ∀ kv ∈ kwargs, kv.1 ≠ n) : kwargs.lookup n = Option.none := by
  induction kwargs with
  | nil => rfl
  | cons kv rest ih =>
    have hne : kv.1 ≠ n := h kv (by simp)
    have hbeq : (n == kv.1) = false := beq_eq_false_iff_ne.2 (fun e => hne e.symm)
    simp only [List.lookup, hbeq]
    exact ih (fun kv2 h2 => h kv2 (List.mem_cons_of_mem kv h2))

theorem bindProps_error_shape : ∀ (props : List PropSpec)
    (kwargs : List (String × PyVal)) (e : PyErr),
    bindProps props [] kwargs = .error e → ∃ m, e = .typeError m
  | [], _, e, h => by simp [bindProps] at h
  | p :: ps, kwargs, e, h => by
    simp only [bindProps] at h
    match hl : kwargs.lookup p.name with
    | some v =>
      rw [hl] at h
      match hrec : bindProps ps [] kwargs with
      | .error e2 =>
        rw [hrec] at h
        cases h
        exact bindProps_error_shape ps kwargs _ hrec
      | .ok rest => rw [hrec] at h; cases h
    | Option.none =>
      rw [hl] at h
      match hd : p.dflt with
      | some d =>
        rw [hd] at h
        match hrec : bindProps ps [] kwargs with
        | .error e2 =>
          rw [hrec] at h
          cases h
          exact bindProps_error_shape ps kwargs _ hrec
        | .ok rest => rw [hrec] at h; cases h
      | Option.none =>
        rw [hd] at h
        cases h
        exact ⟨_, rfl⟩

theorem bindProps_ok_covers : ∀ (props : List PropSpec)
    (kwargs : List (String × PyVal)) (bound : List (String × PyVal)),
    bindProps props [] kwargs = .ok bound →
    ∀ p ∈ props, p.dflt = Option.none → (kwargs.lookup p.name).isSome = true
  | [], _, _, _, p, hp, _ => by simp at hp
  | q :: ps, kwargs, bound, h, p, hp, hd => by
    simp only [bindProps] at h
    rcases List.mem_cons.1 hp with he | he
    · subst he
      match hl : kwargs.lookup p.name with
      | some v => simp
      | Option.none =>
        rw [hl, hd] at h
        cases h
    · match hl : kwargs.lookup q.name with
      | some v =>
        rw [hl] at h
        match hrec : bindProps ps [] kwargs with
        | .error e => rw [hrec] at h; cases h
        | .ok rest => exact bindProps_ok_covers ps kwargs rest hrec p he hd
      | Option.none =>
        rw [hl] at h
        match hdq : q.dflt with
        | some d =>
          rw [hdq] at h
          match hrec : bindProps ps [] kwargs with
          | .error e => rw [hrec] at h; cases h
          | .ok rest => exact bindProps_ok_covers ps kwargs rest hrec p he hd
        | Option.none => rw [hdq] at h; cases h

/-- The value `apply_defaults` leaves for a parameter: the supplied
keyword value, else the declared default. -/
def bindVal (kwargs : List (String × PyVal)) (p : PropSpec) : PyVal :=
  match kwargs.lookup p.name with
  | some v => v
  | Option.none => p.dflt.getD PyVal.none

theorem bindProps_total : ∀ (props : List PropSpec) (kwargs : List (String × PyVal)),
    (∀ p ∈ props, p.dflt = Option.none → (kwargs.lookup p.name).isSome = true) →
    bindProps props [] kwargs = .ok (props.map (fun p => (p.name, bindVal kwargs p)))
  | [], _, _ => rfl
  | p :: ps, kwargs, h => by
    have ih := bindProps_total ps kwargs (fun q hq => h q (List.mem_cons_of_mem p hq))
    simp only [bindProps]
    match hl : kwargs.lookup p.name with
    | some v =>
      rw [ih]
      simp [bindVal, hl]
    | Option.none =>
      match hd : p.dflt with
      | some d =>
        rw [ih]
        simp [bindVal, hl, hd]
      | Option.none =>
        exfalso
        have := h p (by simp) hd
        rw [hl] at this
        simp at this

theorem initLoop_map : ∀ (props : List PropSpec) (f g : PropSpec → PyVal),
    (∀ p ∈ props, checkAndCast p.caster p.hint p.name (f p) = .ok (g p)) →
    initLoop props (props.map (fun p => (p.name, f p))) =
      .ok (props.map (fun p => (p.name, g p)))
  | [], _, _, _ => by simp [initLoop]
  | .mk n k t d :: ps, f, g, h => by
    have hp := h (.mk n k t d) (by simp)
    have ih := initLoop_map ps f g (fun q hq => h q (List.mem_cons_of_mem _ hq))
    simp only [PropSpec.caster, PropSpec.hint, PropSpec.name] at hp
    simp only [List.map_cons]
    rw [show (PropSpec.mk n k t d).name = n from rfl]
    simp only [initLoop, hp, ih]

theorem map_lookup_self {props : List PropSpec} {f : PropSpec → PyVal}
    (hnd : (props.map PropSpec.name).Nodup) {q : PropSpec} (hq : q ∈ props) :
    (props.map (fun p => (p.name, f p))).lookup q.name = some (f q) := by
  induction props with
  | nil => simp at hq
  | cons p ps ih =>
    rcases List.mem_cons.1 hq with hq2 | hq2
    · subst hq2
      simp [List.lookup]
    · have hne : p.name ≠ q.name := by
        intro e
        have : q.name ∈ ps.map PropSpec.name := List.mem_map_of_mem _ hq2
        rw [← e] at this
        exact (List.nodup_cons.1 hnd).1 this
      have hbeq : (q.name == p.name) = false := beq_eq_false_iff_ne.2 (fun e => hne e.symm)
      simp only [List.map_cons, List.lookup, hbeq]
      exact ih (List.nodup_cons.1 hnd).2 hq2

theorem extras_nil {props : List PropSpec} {kwargs : List (String × PyVal)}
    (h : ∀ kv ∈ kwargs, props.any (fun p => p.name == kv.1) = true) :
    kwargs.filter (fun kv => ¬ props.any (fun p => p.name == kv.1)) = [] := by
  induction kwargs with
  | nil => rfl
  | cons kv rest ih =>
    simp only [List.filter]
    rw [show (decide ¬ props.any (fun p => p.name == kv.1) = true) = false by
      simp [h kv (by simp)]]
    exact ih (fun kv2 h2 => h kv2 (List.mem_cons_of_mem kv h2))

theorem runInit_kwargs_ok (n : String) (props : List PropSpec) (kwOpt : Option KwSpec)
    (kwargs : List (String × PyVal)) (g : PropSpec → PyVal)
    (hreq : ∀ p ∈ props, p.dflt = Option.none → (kwargs.lookup p.name).isSome = true)
    (hcast : ∀ p ∈ props,
      checkAndCast p.caster p.hint p.name (bindVal kwargs p) = .ok (g p))
    (hext : ∀ kv ∈ kwargs, props.any (fun p => p.name == kv.1) = true) :
    runInit (.mk n props kwOpt) [] kwargs =
      .ok (props.map (fun p => (p.name, g p))) := by
  have hbind := bindProps_total props kwargs hreq
  have hloop := initLoop_map props (bindVal kwargs) g hcast
  have hfilter := extras_nil hext
  simp only [runInit, bindArgs, List.length_nil]
  rw [if_neg (by simp)]
  rw [hbind, hfilter]
  simp only [Except.bind, hloop]
  match kwOpt with
  | Option.none => rfl
  | some (.mk kc kt) =>
    simp [extrasLoop, Except.map]

/-! ## Claim C6: required-field enforcement -/

/-- C6 (confirmed): invoking a synthesized constructor while omitting any
required property (one whose default is `inspect.Parameter.empty`) raises
`TypeError`; invoking it with all required properties supplied (with
values that are instances of their declared hints) and every optional
property omitted succeeds, and each omitted optional property is set to
its registered default `None`. -/
theorem required_field_enforcement :
    (∀ (cls : ClassSpec) (p : PropSpec) (kwargs : List (String × PyVal)),
      p ∈ cls.props → p.dflt = Option.none →
      (∀ kv ∈ kwargs, kv.1 ≠ p.name) →
      ∃ m, runInit cls [] kwargs = .error (.typeError m)) ∧
    (∀ (n : String) (props : List PropSpec) (kwOpt : Option KwSpec)
        (kwargs : List (String × PyVal)),
      (props.map PropSpec.name).Nodup →
      (∀ p ∈ props, p.dflt = Option.none → (kwargs.lookup p.name).isSome = true) →
      (∀ kv ∈ kwargs, props.any (fun q => q.name == kv.1) = true) →
      (∀ p ∈ props, ∀ v, kwargs.lookup p.name = some v →
        isInstanceE v p.hint = .ok true) →
      (∀ p ∈ props, p.dflt ≠ Option.none → p.dflt = some PyVal.none) →
      ∃ attrs, runInit (.mk n props kwOpt) [] kwargs = .ok attrs ∧
        ∀ p ∈ props, p.dflt = some PyVal.none → kwargs.lookup p.name = Option.none →
          attrs.lookup p.name = some PyVal.none) := by
  constructor
  · rintro ⟨cn, props, kwOpt⟩ p kwargs hp hreq hnone
    have hlk : kwargs.lookup p.name = Option.none :=
      lookup_eq_none_of_all_ne (fun kv hkv e => hnone kv hkv e)
    simp only [ClassSpec.props] at hp
    match hb : bindProps props [] kwargs with
    | .error e =>
      obtain ⟨m, hm⟩ := bindProps_error_shape props kwargs e hb
      refine ⟨m, ?_⟩
      simp only [runInit, bindArgs, List.length_nil]
      rw [if_neg (by simp), hb, hm]
      rfl
    | .ok bound =>
      exfalso
      have := bindProps_ok_covers props kwargs bound hb p hp hreq
      rw [hlk] at this
      simp at this
  · intro n props kwOpt kwargs hnd hreq hext hinst hdflt
    have hcast : ∀ p ∈ props,
        checkAndCast p.caster p.hint p.name (bindVal kwargs p) =
          .ok (bindVal kwargs p) := by
      intro p hp
      match hl : kwargs.lookup p.name with
      | some v =>
        have hv := hinst p hp v hl
        simp only [bindVal, hl]
        match v, hv with
        | PyVal.none, _ => simp [checkAndCast]
        | .strV s, hv => simp [checkAndCast, hv]
        | .intV m, hv => simp [checkAndCast, hv]
        | .boolV b, hv => simp [checkAndCast, hv]
        | .listV xs, hv => simp [checkAndCast, hv]
        | .dictV fs, hv => simp [checkAndCast, hv]
        | .objV c a, hv => simp [checkAndCast, hv]
        | .enumV c i dd, hv => simp [checkAndCast, hv]
        | .datetimeV iso, hv => simp [checkAndCast, hv]
        | .uuidV u, hv => simp [checkAndCast, hv]
      | Option.none =>
        have hne : p.dflt ≠ Option.none := by
          intro e
          have := hreq p hp e
          rw [hl] at this
          simp at this
        have := hdflt p hp hne
        simp [bindVal, hl, this, checkAndCast]
    refine ⟨props.map (fun p => (p.name, bindVal kwargs p)), ?_, ?_⟩
    · exact runInit_kwargs_ok n props kwOpt kwargs (bindVal kwargs) hreq hcast hext
    · intro p hp hd hl
      rw [map_lookup_self hnd hp]
      simp [bindVal, hl, hd]

/-- A compiled `Person` with a required `name` and an optional `age`. -/
def personSpec : ClassSpec :=
  .mk "Person" [.mk "name" Caster.strC TypeHint.tStr Option.none,
                .mk "age" Caster.intC (TypeHint.tOptional TypeHint.tInt) (some PyVal.none)]
    Option.none

/-- Witness for C6: omitting required `name` raises `TypeError`; supplying
only `name` succeeds with `age` defaulted to `None`. -/
theorem required_field_enforcement_witness :
    (∃ m, runInit personSpec [] [] = .error (.typeError m)) ∧
    (∃ attrs, runInit personSpec [] [("name", .strV "John Doe")] = .ok attrs ∧
      attrs.lookup "age" = some PyVal.none) := by
  constructor
  · exact required_field_enforcement.1 personSpec
      (.mk "name" Caster.strC TypeHint.tStr Option.none) []
      (List.mem_cons.2 (Or.inl rfl)) rfl (by intro kv h; simp at h)
  · obtain ⟨attrs, hok, hageAll⟩ := required_field_enforcement.2 "Person"
      [.mk "name" Caster.strC TypeHint.tStr Option.none,
       .mk "age" Caster.intC (TypeHint.tOptional TypeHint.tInt) (some PyVal.none)]
      Option.none [("name", .strV "John Doe")]
      (by simp [PropSpec.name])
      (by
        intro p hp hd
        rcases List.mem_cons.1 hp with h | h
        · subst h; rfl
        · rcases List.mem_cons.1 h with h2 | h2
          · subst h2; simp [PropSpec.dflt] at hd
          · simp at h2)
      (by
        intro kv h
        have := List.mem_singleton.1 h
        subst this
        rfl)
      (by
        intro p hp v hl
        rcases List.mem_cons.1 hp with h | h
        · subst h
          simp only [PropSpec.name, List.lookup] at hl
          rw [show ("name" == "name") = true from rfl] at hl
          cases hl
          rfl
        · rcases List.mem_cons.1 h with h2 | h2
          · subst h2
            simp only [PropSpec.name, List.lookup] at hl
            rw [show ("age" == "name") = false from rfl] at hl
            cases hl
          · simp at h2)
      (by
        intro p hp hd
        rcases List.mem_cons.1 hp with h | h
        · subst h; simp [PropSpec.dflt] at hd
        · rcases List.mem_cons.1 h with h2 | h2
          · subst h2; rfl
          · simp at h2)
    refine ⟨attrs, hok, ?_⟩
    have := hageAll (.mk "age" Caster.intC (TypeHint.tOptional TypeHint.tInt)
        (some PyVal.none))
      (List.mem_cons.2 (Or.inr (List.mem_cons.2 (Or.inl rfl)))) rfl (by rfl)
    exact this

/-! ## Claim C10: explicit None bypasses the type check and the caster -/

/-- C10 (confirmed): for every synthesized type and every declared
property — required or optional alike — explicitly passing `None` as that
property's argument is accepted: the `value is not None` guard skips both
the `is_instance` check and the caster, and `None` is stored unchanged as
the instance attribute, even when the property is required and its
declared type constraint does not include `None`. -/
theorem none_bypasses_validation
    (n : String) (props : List PropSpec) (kwOpt : Option KwSpec)
    (kwargs : List (String × PyVal))
    (hnd : (props.map PropSpec.name).Nodup)
    (hvals : ∀ name v, kwargs.lookup name = some v → v = PyVal.none)
    (hext : ∀ kv ∈ kwargs, props.any (fun q => q.name == kv.1) = true)
    (hreq : ∀ p ∈ props, p.dflt = Option.none → (kwargs.lookup p.name).isSome = true)
    (hdflt : ∀ p ∈ props, p.dflt = Option.none ∨ p.dflt = some PyVal.none) :
    ∃ attrs, runInit (.mk n props kwOpt) [] kwargs = .ok attrs ∧
      ∀ p ∈ props, attrs.lookup p.name = some PyVal.none := by
  have hbv : ∀ p ∈ props, bindVal kwargs p = PyVal.none := by
    intro p hp
    match hl : kwargs.lookup p.name with
    | some v =>
      have := hvals p.name v hl
      simp [bindVal, hl, this]
    | Option.none =>
      rcases hdflt p hp with hd | hd
      · have := hreq p hp hd
        rw [hl] at this
        simp at this
      · simp [bindVal, hl, hd]
  have hcast : ∀ p ∈ props,
      checkAndCast p.caster p.hint p.name (bindVal kwargs p) = .ok PyVal.none := by
    intro p hp
    rw [hbv p hp]
    simp [checkAndCast]
  refine ⟨props.map (fun p => (p.name, PyVal.none)), ?_, ?_⟩
  · exact runInit_kwargs_ok n props kwOpt kwargs (fun _ => PyVal.none) hreq hcast hext
  · intro p hp
    exact map_lookup_self hnd hp

/-- Witness for C10: a required `int`-typed property explicitly set to
`None` is stored as `None` without any coercion attempt. -/
theorem none_bypasses_validation_witness :
    ∃ attrs, runInit (.mk "Widget" [.mk "count" Caster.intC TypeHint.tInt Option.none]
        Option.none) [] [("count", PyVal.none)] = .ok attrs ∧
      attrs.lookup "count" = some PyVal.none := by
  obtain ⟨attrs, hok, hall⟩ := none_bypasses_validation "Widget"
    [.mk "count" Caster.intC TypeHint.tInt Option.none] Option.none
    [("count", PyVal.none)]
    (by simp)
    (by
      intro name v hl
      simp only [List.lookup] at hl
      match hbeq : name == "count" with
      | true => rw [hbeq] at hl; cases hl; rfl
      | false => rw [hbeq] at hl; cases hl)
    (by
      intro kv h
      have := List.mem_singleton.1 h
      subst this
      rfl)
    (by
      intro p hp _
      have := List.mem_singleton.1 hp
      subst this
      rfl)
    (by
      intro p hp
      have := List.mem_singleton.1 hp
      subst this
      exact Or.inl rfl)
  exact ⟨attrs, hok, hall (.mk "count" Caster.intC TypeHint.tInt Option.none)
    (List.mem_cons.2 (Or.inl rfl))⟩

theorem checkAndCast_not_none (k : Caster) (t : TypeHint) (name : String) :
    ∀ v : PyVal, v ≠ PyVal.none →
    checkAndCast k t name v =
      (match isInstanceE v t with
       | .error m => .error (.typeError m)
       | .ok true => .ok v
       | .ok false =>
         match applyCaster k v with
         | .ok w => .ok w
         | .error (.valueError _) => .error (.typeError (coercionMsg name t v))
         | .error (.typeError _) => .error (.typeError (coercionMsg name t v))
         | .error e => .error e) := by
  intro v hv
  match v, hv with
  | PyVal.none, hv => exact absurd rfl hv
  | .strV s, _ => simp [checkAndCast]
  | .intV m, _ => simp [checkAndCast]
  | .boolV b, _ => simp [checkAndCast]
  | .listV xs, _ => simp [checkAndCast]
  | .dictV fs, _ => simp [checkAndCast]
  | .objV c a, _ => simp [checkAndCast]
  | .enumV c i dd, _ => simp [checkAndCast]
  | .datetimeV iso, _ => simp [checkAndCast]
  | .uuidV u, _ => simp [checkAndCast]

theorem initLoop_err : ∀ (props : List PropSpec) (f : PropSpec → PyVal)
    (p : PropSpec) (e : PyErr), p ∈ props →
    (∀ q ∈ props, q ≠ p → checkAndCast q.caster q.hint q.name (f q) = .ok (f q)) →
    checkAndCast p.caster p.hint p.name (f p) = .error e →
    initLoop props (props.map (fun q => (q.name, f q))) = .error e
  | [], _, p, _, hp, _, _ => by simp at hp
  | .mk qn qk qt qd :: ps, f, p, e, hp, hothers, herr => by
    by_cases hq : PropSpec.mk qn qk qt qd = p
    · subst hq
      simp only [PropSpec.caster, PropSpec.hint, PropSpec.name] at herr
      simp only [List.map_cons]
      rw [show (PropSpec.mk qn qk qt qd).name = qn from rfl]
      simp only [initLoop, herr]
    · have hok := hothers (.mk qn qk qt qd) (by simp) hq
      simp only [PropSpec.caster, PropSpec.hint, PropSpec.name] at hok
      have hpmem : p ∈ ps := by
        rcases List.mem_cons.1 hp with h | h
        · exact absurd h.symm hq
        · exact h
      have ih := initLoop_err ps f p e hpmem
        (fun q hq2 hne => hothers q (List.mem_cons_of_mem _ hq2) hne) herr
      simp only [List.map_cons]
      rw [show (PropSpec.mk qn qk qt qd).name = qn from rfl]
      simp only [initLoop, hok, ih]

theorem runInit_kwargs_err (n : String) (props : List PropSpec) (kwOpt : Option KwSpec)
    (kwargs : List (String × PyVal)) (e : PyErr)
    (hreq : ∀ p ∈ props, p.dflt = Option.none → (kwargs.lookup p.name).isSome = true)
    (hloop : initLoop props (props.map (fun p => (p.name, bindVal kwargs p))) = .error e)
    (hext : ∀ kv ∈ kwargs, props.any (fun p => p.name == kv.1) = true) :
    runInit (.mk n props kwOpt) [] kwargs = .error e := by
  have hbind := bindProps_total props kwargs hreq
  have hfilter := extras_nil hext
  simp only [runInit, bindArgs, List.length_nil]
  rw [if_neg (by simp)]
  rw [hbind, hfilter]
  simp only [Except.bind, hloop]

theorem name_eq_of_nodup {props : List PropSpec} (hnd : (props.map PropSpec.name).Nodup)
    {p q : PropSpec} (hp : p ∈ props) (hq : q ∈ props) (h : q.name = p.name) : q = p := by
  induction props with
  | nil => simp at hp
  | cons r ps ih =>
    rcases List.mem_cons.1 hp with hp2 | hp2 <;> rcases List.mem_cons.1 hq with hq2 | hq2
    · rw [hq2, hp2]
    · subst hp2
      exfalso
      have : q.name ∈ ps.map PropSpec.name := List.mem_map_of_mem _ hq2
      rw [h] at this
      exact (List.nodup_cons.1 hnd).1 this
    · subst hq2
      exfalso
      have : p.name ∈ ps.map PropSpec.name := List.mem_map_of_mem _ hp2
      rw [← h] at this
      exact (List.nodup_cons.1 hnd).1 this
    · exact ih (List.nodup_cons.1 hnd).2 hp2 hq2

/-! ## Claim C7: the constructor coercion contract -/

/-- A compiled type with a parametrized-list property, as the registry
produces for an array-typed schema property. -/
def boxSpec : ClassSpec :=
  .mk "Box" [.mk "items" (Caster.listC Caster.strC) (TypeHint.tList TypeHint.tStr)
    Option.none] Option.none

/-- C7 (counterexample): for a property whose declared constraint is a
parametrized list type, a non-list value is rejected by `is_instance`
itself, which raises `TypeError("type_hint: ..., obj: ...")` before the
caster is ever applied — so the constructor neither applies the caster
nor produces the claimed "Argument ... must be of type ..." message. -/
theorem constructor_coercion_contract_cex :
    runInit boxSpec [] [("items", .intV 5)] =
      .error (.typeError (subscriptedMsg (TypeHint.tList TypeHint.tStr) (.intV 5))) ∧
    subscriptedMsg (TypeHint.tList TypeHint.tStr) (.intV 5) ≠
      coercionMsg "items" (TypeHint.tList TypeHint.tStr) (.intV 5) := by
  constructor
  · simp [runInit, boxSpec, bindArgs, bindProps, initLoop, checkAndCast,
      isInstanceE, PropSpec.name, PropSpec.dflt, List.lookup, Except.bind]
  · decide

/-- C7 (amended): for every declared property and supplied non-`None`
value for which `is_instance` returns `False` without raising (when the
constraint is a parametrized list type and the value is not a list,
`is_instance` instead raises its own `TypeError` without invoking the
caster, as the counterexample shows), the constructor applies the
property's caster: a `ValueError`/`TypeError` from the caster is
re-raised as `TypeError` embedding the property name, expected type,
value and value's type, and a successful cast result is stored as the
instance attribute under the declared internal (snake_case) name. -/
theorem constructor_coercion_contract
    (n : String) (props : List PropSpec) (kwOpt : Option KwSpec)
    (kwargs : List (String × PyVal)) (p : PropSpec) (v : PyVal)
    (hnd : (props.map PropSpec.name).Nodup)
    (hp : p ∈ props)
    (hreq : ∀ q ∈ props, q.dflt = Option.none → (kwargs.lookup q.name).isSome = true)
    (hext : ∀ kv ∈ kwargs, props.any (fun q => q.name == kv.1) = true)
    (hlv : kwargs.lookup p.name = some v)
    (hvn : v ≠ PyVal.none)
    (hinstF : isInstanceE v p.hint = .ok false)
    (hothers : ∀ q ∈ props, q ≠ p →
      checkAndCast q.caster q.hint q.name (bindVal kwargs q) = .ok (bindVal kwargs q)) :
    (∀ m, (applyCaster p.caster v = .error (.valueError m) ∨
           applyCaster p.caster v = .error (.typeError m)) →
      runInit (.mk n props kwOpt) [] kwargs =
        .error (.typeError (coercionMsg p.name p.hint v))) ∧
    (∀ w, applyCaster p.caster v = .ok w →
      ∃ attrs, runInit (.mk n props kwOpt) [] kwargs = .ok attrs ∧
        attrs.lookup p.name = some w) := by
  have hbv : bindVal kwargs p = v := by simp [bindVal, hlv]
  constructor
  · intro m hm
    have herr : checkAndCast p.caster p.hint p.name (bindVal kwargs p) =
        .error (.typeError (coercionMsg p.name p.hint v)) := by
      rw [hbv, checkAndCast_not_none p.caster p.hint p.name v hvn, hinstF]
      rcases hm with hm | hm <;> rw [hm]
    exact runInit_kwargs_err n props kwOpt kwargs _ hreq
      (initLoop_err props (bindVal kwargs) p _ hp hothers herr) hext
  · intro w hw
    have hcast : ∀ q ∈ props,
        checkAndCast q.caster q.hint q.name (bindVal kwargs q) =
          .ok (if q.name = p.name then w else bindVal kwargs q) := by
      intro q hq
      by_cases he : q.name = p.name
      · have : q = p := name_eq_of_nodup hnd hp hq he
        subst this
        rw [if_pos he, hbv, checkAndCast_not_none q.caster q.hint q.name v hvn,
          hinstF, hw]
      · rw [if_neg he]
        exact hothers q hq (fun e => he (by rw [e]))
    refine ⟨props.map (fun q => (q.name, if q.name = p.name then w
      else bindVal kwargs q)), ?_, ?_⟩
    · exact runInit_kwargs_ok n props kwOpt kwargs _ hreq hcast hext
    · rw [map_lookup_self hnd hp]
      simp

/-- Witness for C7 (amended): an `int`-typed property given the string
"abc" fails the cast with the coercion `TypeError`; given "42" it is cast
and stored as 42. -/
theorem constructor_coercion_contract_witness :
    (runInit (.mk "W" [.mk "x" Caster.intC TypeHint.tInt Option.none] Option.none)
        [] [("x", .strV "abc")] =
      .error (.typeError (coercionMsg "x" TypeHint.tInt (.strV "abc")))) ∧
    (∃ attrs, runInit (.mk "W" [.mk "x" Caster.intC TypeHint.tInt Option.none]
        Option.none) [] [("x", .strV "42")] = .ok attrs ∧
      attrs.lookup "x" = some (.intV 42)) := by
  constructor
  · have h := (constructor_coercion_contract "W"
      [.mk "x" Caster.intC TypeHint.tInt Option.none] Option.none
      [("x", .strV "abc")] (.mk "x" Caster.intC TypeHint.tInt Option.none)
      (.strV "abc") (by simp) (List.mem_cons.2 (Or.inl rfl))
      (by
        intro q hq _
        have := List.mem_singleton.1 hq
        subst this
        rfl)
      (by
        intro kv h
        have := List.mem_singleton.1 h
        subst this
        rfl)
      rfl (fun h => PyVal.noConfusion h) rfl
      (by
        intro q hq hne
        exact absurd (List.mem_singleton.1 hq) hne)).1
    have hparse : parseIntStr "abc" = Option.none := rfl
    exact h ("invalid literal for int() with base 10: " ++ pyQuote ++ "abc" ++ pyQuote)
      (Or.inl (by simp [applyCaster, PropSpec.caster, hparse]))
  · have h := (constructor_coercion_contract "W"
      [.mk "x" Caster.intC TypeHint.tInt Option.none] Option.none
      [("x", .strV "42")] (.mk "x" Caster.intC TypeHint.tInt Option.none)
      (.strV "42") (by simp) (List.mem_cons.2 (Or.inl rfl))
      (by
        intro q hq _
        have := List.mem_singleton.1 hq
        subst this
        rfl)
      (by
        intro kv h
        have := List.mem_singleton.1 h
        subst this
        rfl)
      rfl (fun h => PyVal.noConfusion h) rfl
      (by
        intro q hq hne
        exact absurd (List.mem_singleton.1 hq) hne)).2
    have hparse : parseIntStr "42" = some 42 := rfl
    exact h (.intV 42) (by simp [applyCaster, PropSpec.caster, hparse])

/-! ## Claim C4: error-path accumulation -/

/-- Prefix test over character lists. -/
def listPrefixOf : List Char → List Char → Bool
  | [], _ => true
  | _ :: _, [] => false
  | a :: as, b :: bs => a == b && listPrefixOf as bs

/-- Infix test over character lists. -/
def listInfixOf (sub : List Char) : List Char → Bool
  | [] => listPrefixOf sub []
  | c :: cs => listPrefixOf sub (c :: cs) || listInfixOf sub cs

/-- Substring test over strings. -/
def containsSub (s sub : String) : Bool := listInfixOf sub.toList s.toList

/-- A nested pair of compiled classes: `Root` holds a required `child` of
class `Child`, which holds a required string `x`. -/
def childSpec : ClassSpec :=
  .mk "Child" [.mk "x" Caster.strC TypeHint.tStr Option.none] Option.none

def rootSpec : ClassSpec :=
  .mk "Root" [.mk "child" (Caster.fromDict childSpec) (TypeHint.tClass "Child")
    Option.none] Option.none

/-- C4 (counterexample): reconstructing `Root` from
`{"Child": {}}` fails on the nested `Child`'s missing required field `x`,
whose message ("Error while constructing Child: missing a required
argument: 'x'") the outer constructor discards: the exception seen by the
top-level caller names only the outermost class and its immediate
property `child`, and contains neither the dotted path "child.x" nor the
inner field name. -/
theorem error_path_accumulation_cex :
    fromDictF childSpec (.dictV []) =
      .error (.typeError ("Error while constructing Child: " ++ missingArgMsg "x")) ∧
    fromDictF rootSpec (.dictV [("Child", .dictV [])]) =
      .error (.typeError ("Error while constructing Root: " ++
        coercionMsg "child" (TypeHint.tClass "Child") (.dictV []))) ∧
    containsSub ("Error while constructing Root: " ++
      coercionMsg "child" (TypeHint.tClass "Child") (.dictV [])) "child.x" = false := by
  have h1 : fromDictF childSpec (.dictV []) =
      .error (.typeError ("Error while constructing Child: " ++ missingArgMsg "x")) := by
    simp [fromDictF, runInit, childSpec, bindArgs, bindProps, initLoop,
      PropSpec.name, PropSpec.dflt, ClassSpec.name, List.lookup, Except.bind,
      missingArgMsg]
  have hmap : ([(("Child" : String), PyVal.dictV [])].map
      (fun kv => (p2sName kv.1, kv.2))) = [(("child" : String), PyVal.dictV [])] := by
    have e1 : p2sName "Child" = "child" := rfl
    simp [e1]
  have herr : checkAndCast (Caster.fromDict childSpec) (TypeHint.tClass "Child")
      "child" (PyVal.dictV []) =
      .error (.typeError (coercionMsg "child" (TypeHint.tClass "Child")
        (PyVal.dictV []))) := by
    rw [checkAndCast_not_none (Caster.fromDict childSpec) (TypeHint.tClass "Child")
      "child" (PyVal.dictV []) (fun h => PyVal.noConfusion h)]
    have hinst : isInstanceE (PyVal.dictV []) (TypeHint.tClass "Child") = .ok false := rfl
    rw [hinst]
    have happ : applyCaster (Caster.fromDict childSpec) (PyVal.dictV []) =
        fromDictF childSpec (PyVal.dictV []) := by
      simp [applyCaster]
    rw [happ, h1]
  have hloop := initLoop_err
    [PropSpec.mk "child" (Caster.fromDict childSpec) (TypeHint.tClass "Child") Option.none]
    (bindVal [(("child" : String), PyVal.dictV [])])
    (PropSpec.mk "child" (Caster.fromDict childSpec) (TypeHint.tClass "Child") Option.none)
    (.typeError (coercionMsg "child" (TypeHint.tClass "Child") (PyVal.dictV [])))
    (by simp)
    (by
      intro q hq hne
      exact absurd (List.mem_singleton.1 hq) hne)
    herr
  have hrun := runInit_kwargs_err "Root"
    [PropSpec.mk "child" (Caster.fromDict childSpec) (TypeHint.tClass "Child") Option.none]
    Option.none [(("child" : String), PyVal.dictV [])]
    (.typeError (coercionMsg "child" (TypeHint.tClass "Child") (PyVal.dictV [])))
    (by
      intro q hq _
      have := List.mem_singleton.1 hq
      subst this
      rfl)
    hloop
    (by
      intro kv hkv
      have := List.mem_singleton.1 hkv
      subst this
      rfl)
  refine ⟨h1, ?_, by decide⟩
  have hexp : rootSpec = ClassSpec.mk "Root"
      [PropSpec.mk "child" (Caster.fromDict childSpec) (TypeHint.tClass "Child")
        Option.none] Option.none := rfl
  rw [hexp]
  simp only [fromDictF]
  rw [hmap, hrun]
  rfl

/-- C4 (amended): when a nested reconstruction fails, the constructor's
`except (ValueError, TypeError)` handler replaces the nested `from_dict`
message (here an arbitrary `m`) with its own `coercionMsg` for the
immediate property, and the top-level `from_dict` prepends only its own
class name: the caller sees the outermost class, the immediate property
name, its expected type and the raw nested value — the inner message, and
with it any deeper path information, survives only as the exception's
`__cause__`, so no dotted path accumulates in the message. -/
theorem error_path_discarded
    (n : String) (props : List PropSpec) (kwOpt : Option KwSpec)
    (fields : List (String × PyVal)) (p : PropSpec) (c2 : ClassSpec)
    (dv : PyVal) (m : String)
    (hp : p ∈ props)
    (hk : p.caster = .fromDict c2)
    (hreq : ∀ q ∈ props, q.dflt = Option.none →
      ((fields.map (fun kv => (p2sName kv.1, kv.2))).lookup q.name).isSome = true)
    (hext : ∀ kv ∈ fields.map (fun kv => (p2sName kv.1, kv.2)),
      props.any (fun q => q.name == kv.1) = true)
    (hlv : (fields.map (fun kv => (p2sName kv.1, kv.2))).lookup p.name = some dv)
    (hdv : dv ≠ PyVal.none)
    (hinstF : isInstanceE dv p.hint = .ok false)
    (hothers : ∀ q ∈ props, q ≠ p →
      checkAndCast q.caster q.hint q.name
        (bindVal (fields.map (fun kv => (p2sName kv.1, kv.2))) q) =
        .ok (bindVal (fields.map (fun kv => (p2sName kv.1, kv.2))) q))
    (hfail : fromDictF c2 dv = .error (.typeError m)) :
    fromDictF (.mk n props kwOpt) (.dictV fields) =
      .error (.typeError ("Error while constructing " ++ n ++ ": " ++
        coercionMsg p.name p.hint dv)) := by
  have hbv : bindVal (fields.map (fun kv => (p2sName kv.1, kv.2))) p = dv := by
    simp [bindVal, hlv]
  have herr : checkAndCast p.caster p.hint p.name
      (bindVal (fields.map (fun kv => (p2sName kv.1, kv.2))) p) =
      .error (.typeError (coercionMsg p.name p.hint dv)) := by
    rw [hbv, checkAndCast_not_none p.caster p.hint p.name dv hdv, hinstF, hk]
    have : applyCaster (.fromDict c2) dv = fromDictF c2 dv := by
      simp [applyCaster]
    rw [this, hfail]
  have hrun := runInit_kwargs_err n props kwOpt
    (fields.map (fun kv => (p2sName kv.1, kv.2)))
    (.typeError (coercionMsg p.name p.hint dv)) hreq
    (initLoop_err props _ p _ hp hothers herr) hext
  simp only [fromDictF, hrun, ClassSpec.name]

/-- Witness for C4 (amended): the concrete `Root`/`Child` pair with the
inner message `"Error while constructing Child: missing a required
argument: 'x'"`; the top-level message replaces it entirely. -/
theorem error_path_discarded_witness :
    fromDictF rootSpec (.dictV [("Child", .dictV [])]) =
      .error (.typeError ("Error while constructing Root: " ++
        coercionMsg "child" (TypeHint.tClass "Child") (.dictV []))) := by
  have hmap : ([(("Child" : String), PyVal.dictV [])].map
      (fun kv => (p2sName kv.1, kv.2))) = [(("child" : String), PyVal.dictV [])] := by
    have e1 : p2sName "Child" = "child" := rfl
    simp [e1]
  have hfail : fromDictF childSpec (.dictV []) =
      .error (.typeError ("Error while constructing Child: " ++ missingArgMsg "x")) := by
    simp [fromDictF, runInit, childSpec, bindArgs, bindProps, initLoop,
      PropSpec.name, PropSpec.dflt, ClassSpec.name, List.lookup, Except.bind,
      missingArgMsg]
  have hexp : rootSpec = ClassSpec.mk "Root"
      [PropSpec.mk "child" (Caster.fromDict childSpec) (TypeHint.tClass "Child")
        Option.none] Option.none := rfl
  rw [hexp]
  exact error_path_discarded "Root"
    [PropSpec.mk "child" (Caster.fromDict childSpec) (TypeHint.tClass "Child")
      Option.none]
    Option.none [("Child", PyVal.dictV [])]
    (PropSpec.mk "child" (Caster.fromDict childSpec) (TypeHint.tClass "Child")
      Option.none)
    childSpec (PyVal.dictV [])
    ("Error while constructing Child: " ++ missingArgMsg "x")
    (List.mem_singleton.2 rfl) rfl
    (by
      intro q hq _
      rw [hmap]
      have := List.mem_singleton.1 hq
      subst this
      rfl)
    (by
      intro kv hkv
      rw [hmap] at hkv
      have := List.mem_singleton.1 hkv
      subst this
      rfl)
    (by
      rw [hmap]
      rfl)
    (fun h => PyVal.noConfusion h) rfl
    (by
      intro q hq hne
      exact absurd (List.mem_singleton.1 hq) hne)
    hfail

/-! ## Multi-inheritance: `_combine_multiinheritance_inits`
(`base_classes.py`, lines 280-355)

The combined constructor built for an `allOf` multi-inheritance class:
its signature concatenates every parent's declared properties in
method-resolution order, and a `**kwargs` catch-all is appended when
some parent declares one and no parameter is already named `kwargs`.
After `bind`/`apply_defaults`, each parent's own `__init__` runs on the
shared instance with the bound arguments restricted to that parent's
parameter names (the loop skips `self` and `kwargs`, then flattens the
catch-all dict into parents that accept `**kwargs`); attribute writes
accumulate on `self` with dict-assignment semantics. -/

/-- Sequential `setattr` of a write list onto an attribute store. -/
def applyWrites : List (String × PyVal) → List (String × PyVal) →
    List (String × PyVal)
  | store, [] => store
  | store, (n, v) :: rest => applyWrites (dictAssign store n v) rest

/-- The parameter list of the combined signature: every parent's
properties, concatenated in MRO order (`for supercls in cls.__mro__[1:-2]`). -/
def mergedProps (parents : List ClassSpec) : List PropSpec :=
  (parents.map ClassSpec.props).join

/-- Whether the merged signature receives a `**kwargs` catch-all: some
parent declares one and no parameter is already named `kwargs`. -/
def multiHasKw (parents : List ClassSpec) : Bool :=
  (!(mergedProps parents).any (fun p => p.name == "kwargs")) &&
    parents.any (fun c => c.kwargsProp.isSome)

/-- `super_kwargs` for one parent: the bound arguments whose name is not
`"kwargs"` and occurs among the parent's parameters, with the bound
catch-all entries flattened in when `"kwargs"` is itself one of the
parent's parameters. -/
def superKwargs (c : ClassSpec) (bound extras : List (String × PyVal)) :
    List (String × PyVal) :=
  if c.kwargsProp.isSome || c.props.any (fun p => p.name == "kwargs")
  then applyWrites (bound.filter (fun kv => kv.1 != "kwargs" &&
    c.props.any (fun p => p.name == kv.1))) extras
  else bound.filter (fun kv => kv.1 != "kwargs" &&
    c.props.any (fun p => p.name == kv.1))

/-- The loop `for supercls in cls.__mro__[1:-2]: supercls.__init__(self,
**super_kwargs)`, threading the shared instance's attribute store. -/
def superLoop (bound extras : List (String × PyVal)) :
    List ClassSpec → List (String × PyVal) → Except PyErr (List (String × PyVal))
  | [], store => .ok store
  | c :: cs, store =>
    match runInit c [] (superKwargs c bound extras) with
    | .error e => .error e
    | .ok writes => superLoop bound extras cs (applyWrites store writes)

/-- The combined `replacement_init_function` of
`_combine_multiinheritance_inits`: bind against the merged signature,
apply defaults, then invoke each parent's constructor in order. -/
def runMultiInit (parents : List ClassSpec) (args : List PyVal)
    (kwargs : List (String × PyVal)) : Except PyErr (List (String × PyVal)) :=
  (bindArgs (mergedProps parents) (multiHasKw parents) args kwargs).bind
    (fun be => superLoop be.1 be.2 parents [])

/-! ### Support lemmas for the multi-inheritance constructor -/

theorem superKwargs_nil (c : ClassSpec) (bound : List (String × PyVal)) :
    superKwargs c bound [] = bound.filter (fun kv => kv.1 != "kwargs" &&
      c.props.any (fun p => p.name == kv.1)) := by
  simp only [superKwargs]
  split <;> rfl

theorem applyWrites_append : ∀ (writes store : List (String × PyVal)),
    (∀ w ∈ writes, store.any (fun s => s.1 == w.1) = false) →
    (writes.map Prod.fst).Nodup →
    applyWrites store writes = store ++ writes
  | [], store, _, _ => by simp [applyWrites]
  | (n, v) :: rest, store, hdisj, hnd => by
    have h0 : store.any (fun s => s.1 == n) = false := hdisj (n, v) (by simp)
    have hrec := applyWrites_append rest (store ++ [(n, v)])
      (fun w hw => by
        have h1 : store.any (fun s => s.1 == w.1) = false :=
          hdisj w (List.mem_cons_of_mem _ hw)
        have h2 : n ≠ w.1 := by
          intro e
          have hmem : w.1 ∈ rest.map Prod.fst := List.mem_map_of_mem _ hw
          rw [← e] at hmem
          exact (List.nodup_cons.1 hnd).1 hmem
        simp [List.any_append, h1, h2])
      (List.nodup_cons.1 hnd).2
    simp only [applyWrites, dictAssign]
    rw [if_neg (by simp [h0])]
    rw [hrec]
    simp

theorem mem_mergedProps {parents : List ClassSpec} {c : ClassSpec}
    (hc : c ∈ parents) {p : PropSpec} (hp : p ∈ c.props) :
    p ∈ mergedProps parents :=
  List.mem_join.2 ⟨c.props, List.mem_map_of_mem _ hc, hp⟩

theorem props_sublist : ∀ (parents : List ClassSpec) (c : ClassSpec),
    c ∈ parents → c.props.Sublist (mergedProps parents)
  | [], _, hc => by simp at hc
  | d :: ds, c, hc => by
    have hm : mergedProps (d :: ds) = d.props ++ mergedProps ds := rfl
    rw [hm]
    rcases List.mem_cons.1 hc with rfl | hc2
    · exact List.sublist_append_left _ _
    · exact (props_sublist ds c hc2).trans (List.sublist_append_right _ _)

theorem superLoop_union : ∀ (parents : List ClassSpec)
    (bound : List (String × PyVal)) (f : PropSpec → PyVal)
    (store : List (String × PyVal)),
    (∀ c ∈ parents, runInit c [] (superKwargs c bound []) =
      .ok (c.props.map (fun p => (p.name, f p)))) →
    ((mergedProps parents).map PropSpec.name).Nodup →
    (∀ p ∈ mergedProps parents, store.any (fun s => s.1 == p.name) = false) →
    superLoop bound [] parents store =
      .ok (store ++ (mergedProps parents).map (fun p => (p.name, f p)))
  | [], bound, f, store, _, _, _ => by simp [superLoop, mergedProps]
  | c :: cs, bound, f, store, hrun, hnd, hdisj => by
    have hm : mergedProps (c :: cs) = c.props ++ mergedProps cs := rfl
    have hmap : (mergedProps (c :: cs)).map PropSpec.name =
        c.props.map PropSpec.name ++ (mergedProps cs).map PropSpec.name := by
      rw [hm, List.map_append]
    rw [hmap] at hnd
    rcases List.nodup_append.1 hnd with ⟨hnd1, hnd2, hdj⟩
    have hwn : ((c.props.map (fun p => (p.name, f p))).map Prod.fst).Nodup := by
      simpa [List.map_map, Function.comp] using hnd1
    have hwdisj : ∀ w ∈ c.props.map (fun p => (p.name, f p)),
        store.any (fun s => s.1 == w.1) = false := by
      intro w hw
      rcases List.mem_map.1 hw with ⟨p, hp, rfl⟩
      exact hdisj p (by rw [hm]; exact List.mem_append_left _ hp)
    have happ := applyWrites_append (c.props.map (fun p => (p.name, f p)))
      store hwdisj hwn
    have hih := superLoop_union cs bound f
      (store ++ c.props.map (fun p => (p.name, f p)))
      (fun d hd => hrun d (List.mem_cons_of_mem _ hd)) hnd2
      (by
        intro p hp
        have hs : store.any (fun s => s.1 == p.name) = false :=
          hdisj p (by rw [hm]; exact List.mem_append_right _ hp)
        have hc : (c.props.map (fun p => (p.name, f p))).any
            (fun s => s.1 == p.name) = false := by
          by_contra hcon
          rcases List.any_eq_true.1 (Bool.of_not_eq_false hcon) with ⟨w, hw, hbeq⟩
          rcases List.mem_map.1 hw with ⟨q, hq, rfl⟩
          have he : q.name = p.name := by simpa using hbeq
          have hqn : q.name ∈ (mergedProps cs).map PropSpec.name := by
            rw [he]
            exact List.mem_map_of_mem _ hp
          exact hdj (List.mem_map_of_mem _ hq) hqn
        simp [List.any_append, hs, hc])
    simp only [superLoop, hrun c (by simp)]
    rw [happ, hih, hm, List.map_append, List.append_assoc]

theorem filter_block : ∀ (parents : List ClassSpec) (f : PropSpec → PyVal)
    (c : ClassSpec), c ∈ parents →
    ((mergedProps parents).map PropSpec.name).Nodup →
    (∀ p ∈ mergedProps parents, p.name ≠ "kwargs") →
    ((mergedProps parents).map (fun p => (p.name, f p))).filter
        (fun kv => kv.1 != "kwargs" && c.props.any (fun p => p.name == kv.1)) =
      c.props.map (fun p => (p.name, f p))
  | [], _, c, hc, _, _ => by simp at hc
  | d :: ds, f, c, hc, hnd, hnk => by
    have hm : mergedProps (d :: ds) = d.props ++ mergedProps ds := rfl
    have hmap : (mergedProps (d :: ds)).map PropSpec.name =
        d.props.map PropSpec.name ++ (mergedProps ds).map PropSpec.name := by
      rw [hm, List.map_append]
    rw [hmap] at hnd
    rcases List.nodup_append.1 hnd with ⟨hnd1, hnd2, hdj⟩
    have hsplit : (mergedProps (d :: ds)).map (fun p => (p.name, f p)) =
        d.props.map (fun p => (p.name, f p)) ++
          (mergedProps ds).map (fun p => (p.name, f p)) := by
      rw [hm, List.map_append]
    rw [hsplit, List.filter_append]
    rcases List.mem_cons.1 hc with rfl | hc2
    · have hleft : (c.props.map (fun p => (p.name, f p))).filter
          (fun kv => kv.1 != "kwargs" && c.props.any (fun p => p.name == kv.1)) =
          c.props.map (fun p => (p.name, f p)) := by
        apply List.filter_eq_self.2
        intro kv hkv
        rcases List.mem_map.1 hkv with ⟨p, hp, rfl⟩
        have hk : p.name ≠ "kwargs" :=
          hnk p (by rw [hm]; exact List.mem_append_left _ hp)
        have hany : c.props.any (fun q => q.name == p.name) = true :=
          List.any_eq_true.2 ⟨p, hp, by simp⟩
        simp [hany, hk]
      have hright : ((mergedProps ds).map (fun p => (p.name, f p))).filter
          (fun kv => kv.1 != "kwargs" && c.props.any (fun p => p.name == kv.1)) =
          [] := by
        apply List.filter_eq_nil.2
        intro kv hkv
        rcases List.mem_map.1 hkv with ⟨q, hq, rfl⟩
        have hany : c.props.any (fun p => p.name == q.name) = false := by
          by_contra hcon
          rcases List.any_eq_true.1 (Bool.of_not_eq_false hcon) with ⟨p, hp, hbeq⟩
          have he : p.name = q.name := by simpa using hbeq
          have hqn : p.name ∈ (mergedProps ds).map PropSpec.name := by
            rw [he]
            exact List.mem_map_of_mem _ hq
          exact hdj (List.mem_map_of_mem _ hp) hqn
        simp [hany]
      rw [hleft, hright, List.append_nil]
    · have hleft : (d.props.map (fun p => (p.name, f p))).filter
          (fun kv => kv.1 != "kwargs" && c.props.any (fun p => p.name == kv.1)) =
          [] := by
        apply List.filter_eq_nil.2
        intro kv hkv
        rcases List.mem_map.1 hkv with ⟨p, hp, rfl⟩
        have hany : c.props.any (fun q => q.name == p.name) = false := by
          by_contra hcon
          rcases List.any_eq_true.1 (Bool.of_not_eq_false hcon) with ⟨q, hq, hbeq⟩
          have he : q.name = p.name := by simpa using hbeq
          have hqm : q ∈ mergedProps ds := mem_mergedProps hc2 hq
          have hpn : p.name ∈ (mergedProps ds).map PropSpec.name := by
            rw [← he]
            exact List.mem_map_of_mem _ hqm
          exact hdj (List.mem_map_of_mem _ hp) hpn
        simp [hany]
      have hright := filter_block ds f c hc2 hnd2
        (fun p hp => hnk p (by rw [hm]; exact List.mem_append_right _ hp))
      rw [hleft, hright, List.nil_append]

theorem map_pair_congr {l : List PropSpec} {f g : PropSpec → PyVal}
    (h : ∀ p ∈ l, f p = g p) :
    l.map (fun p => (p.name, f p)) = l.map (fun p => (p.name, g p)) := by
  induction l with
  | nil => rfl
  | cons p ps ih =>
    simp only [List.map_cons, h p (by simp),
      ih (fun q hq => h q (List.mem_cons_of_mem _ hq))]

/-! ## Claim C8: multi-inheritance union of fields -/

/-- C8 (confirmed): for a type compiled from an `allOf` of object
schemas, the combined synthesized constructor accepts every property
declared by every parent: with pairwise-distinct declared names, none
of them `"kwargs"`, and keyword values that each pass their property's
instance check or cast to themselves, construction succeeds, each
parent's constructor receives exactly its own declared properties, and
the final attribute store maps every declared name to the assigned
value. -/
theorem multiinheritance_union_of_fields
    (parents : List ClassSpec) (f : PropSpec → PyVal)
    (hnd : ((mergedProps parents).map PropSpec.name).Nodup)
    (hnk : ∀ p ∈ mergedProps parents, p.name ≠ "kwargs")
    (hcast : ∀ p ∈ mergedProps parents,
      checkAndCast p.caster p.hint p.name (f p) = .ok (f p)) :
    runMultiInit parents []
        ((mergedProps parents).map (fun p => (p.name, f p))) =
      .ok ((mergedProps parents).map (fun p => (p.name, f p))) ∧
    ∀ p ∈ mergedProps parents,
      ((mergedProps parents).map (fun q => (q.name, f q))).lookup p.name =
        some (f p) := by
  have hlook : ∀ p ∈ mergedProps parents,
      ((mergedProps parents).map (fun q => (q.name, f q))).lookup p.name =
        some (f p) := fun p hp => map_lookup_self hnd hp
  refine ⟨?_, hlook⟩
  have hK : ∀ kv ∈ (mergedProps parents).map (fun p => (p.name, f p)),
      (mergedProps parents).any (fun p => p.name == kv.1) = true := by
    intro kv hkv
    rcases List.mem_map.1 hkv with ⟨p, hp, rfl⟩
    exact List.any_eq_true.2 ⟨p, hp, by simp⟩
  have hreq : ∀ p ∈ mergedProps parents, p.dflt = Option.none →
      (((mergedProps parents).map (fun q => (q.name, f q))).lookup p.name).isSome
        = true := by
    intro p hp _
    rw [hlook p hp]
    rfl
  have hbound := bindProps_total (mergedProps parents)
    ((mergedProps parents).map (fun p => (p.name, f p))) hreq
  have hbv : (mergedProps parents).map (fun p => (p.name,
      bindVal ((mergedProps parents).map (fun q => (q.name, f q))) p)) =
      (mergedProps parents).map (fun p => (p.name, f p)) :=
    map_pair_congr (fun p hp => by simp [bindVal, hlook p hp])
  rw [hbv] at hbound
  have hfilter := extras_nil hK
  have hrunAll : ∀ c ∈ parents, runInit c []
      (superKwargs c ((mergedProps parents).map (fun p => (p.name, f p))) []) =
      .ok (c.props.map (fun p => (p.name, f p))) := by
    intro c hc
    rw [superKwargs_nil, filter_block parents f c hc hnd hnk]
    have hndc : (c.props.map PropSpec.name).Nodup :=
      hnd.sublist ((props_sublist parents c hc).map PropSpec.name)
    have hlookc : ∀ p ∈ c.props,
        (c.props.map (fun q => (q.name, f q))).lookup p.name = some (f p) :=
      fun p hp => map_lookup_self hndc hp
    obtain ⟨n, props, kwOpt⟩ := c
    simp only [ClassSpec.props] at hlookc ⊢
    refine runInit_kwargs_ok n props kwOpt _ f ?_ ?_ ?_
    · intro p hp _
      rw [hlookc p hp]
      rfl
    · intro p hp
      have hbp : bindVal (props.map (fun q => (q.name, f q))) p = f p := by
        simp [bindVal, hlookc p hp]
      rw [hbp]
      exact hcast p (mem_mergedProps hc hp)
    · intro kv hkv
      rcases List.mem_map.1 hkv with ⟨p, hp, rfl⟩
      exact List.any_eq_true.2 ⟨p, hp, by simp⟩
  have hsuper := superLoop_union parents
    ((mergedProps parents).map (fun p => (p.name, f p))) f [] hrunAll hnd
    (fun p hp => rfl)
  simp only [runMultiInit, bindArgs, List.length_nil]
  rw [if_neg (by simp)]
  rw [hbound, hfilter]
  simp only [Except.bind]
  rw [hsuper]
  simp

/-- The `Person` parent of the spec example: properties `name`, `age`. -/
def personC8 : ClassSpec :=
  .mk "Person" [.mk "name" Caster.strC TypeHint.tStr Option.none,
    .mk "age" Caster.intC TypeHint.tInt Option.none] Option.none

/-- The second parent of the spec example: property `employee_id`. -/
def employmentC8 : ClassSpec :=
  .mk "Employment" [.mk "employee_id" Caster.strC TypeHint.tStr Option.none]
    Option.none

/-- The argument assignment of the spec example. -/
def employeeVals (p : PropSpec) : PyVal :=
  if p.name == "name" then .strV "John Doe"
  else if p.name == "age" then .intV 30
  else .strV "E12345"

/-- Witness for C8: `Employee` compiled from parents `Person{name, age}`
and `{employee_id}`: constructing with `name="John Doe"`, `age=30`,
`employee_id="E12345"` succeeds and every attribute reads back the
assigned value. -/
theorem multiinheritance_union_witness :
    runMultiInit [personC8, employmentC8] []
        [("name", PyVal.strV "John Doe"), ("age", PyVal.intV 30),
          ("employee_id", PyVal.strV "E12345")] =
      .ok [("name", PyVal.strV "John Doe"), ("age", PyVal.intV 30),
          ("employee_id", PyVal.strV "E12345")] ∧
    [("name", PyVal.strV "John Doe"), ("age", PyVal.intV 30),
        ("employee_id", PyVal.strV "E12345")].lookup "name" =
      some (PyVal.strV "John Doe") ∧
    [("name", PyVal.strV "John Doe"), ("age", PyVal.intV 30),
        ("employee_id", PyVal.strV "E12345")].lookup "age" =
      some (PyVal.intV 30) ∧
    [("name", PyVal.strV "John Doe"), ("age", PyVal.intV 30),
        ("employee_id", PyVal.strV "E12345")].lookup "employee_id" =
      some (PyVal.strV "E12345") := by
  have h := multiinheritance_union_of_fields [personC8, employmentC8]
    employeeVals (by decide) (by decide)
    (by
      intro p hp
      have he : mergedProps [personC8, employmentC8] =
          [PropSpec.mk "name" Caster.strC TypeHint.tStr Option.none,
            PropSpec.mk "age" Caster.intC TypeHint.tInt Option.none,
            PropSpec.mk "employee_id" Caster.strC TypeHint.tStr Option.none] := rfl
      rw [he] at hp
      have hp3 : p = PropSpec.mk "name" Caster.strC TypeHint.tStr Option.none ∨
          p = PropSpec.mk "age" Caster.intC TypeHint.tInt Option.none ∨
          p = PropSpec.mk "employee_id" Caster.strC TypeHint.tStr Option.none := by
        simpa using hp
      rcases hp3 with rfl | rfl | rfl <;>
        simp [checkAndCast, employeeVals, isInstanceE, plainInst,
          PropSpec.name, PropSpec.caster, PropSpec.hint])
  have hm : (mergedProps [personC8, employmentC8]).map
      (fun p => (p.name, employeeVals p)) =
      [("name", PyVal.strV "John Doe"), ("age", PyVal.intV 30),
        ("employee_id", PyVal.strV "E12345")] := rfl
  refine ⟨?_, rfl, rfl, rfl⟩
  have h1 := h.1
  rw [hm] at h1
  exact h1

/-! ## Claim C1: round-trip idempotence of `to_dict`/`from_dict` -/

theorem dictAssign_append {store : List (String × PyVal)} {k : String} {v : PyVal}
    (h : store.any (fun s => s.1 == k) = false) :
    dictAssign store k v = store ++ [(k, v)] := by
  simp only [dictAssign]
  rw [if_neg (by simp [h])]

theorem toDictFields_acc (SS : String → List String) (cn : String) :
    ∀ (props : List PropSpec) (g w : PropSpec → PyVal)
      (acc : List (String × PyVal)),
    (∀ p ∈ props, toDictConv SS (g p) = .ok (w p)) →
    (∀ p ∈ props,
      acc.any (fun s => s.1 == snake_to_pascal p.name (SS cn)) = false) →
    (props.map (fun p => snake_to_pascal p.name (SS cn))).Nodup →
    toDictFields SS cn acc (props.map (fun p => (p.name, g p))) =
      .ok (acc ++ props.map (fun p => (snake_to_pascal p.name (SS cn), w p)))
  | [], _, _, acc, _, _, _ => by simp [toDictFields]
  | p :: ps, g, w, acc, hconv, hacc, hknd => by
    have hp := hconv p (by simp)
    have hassign := dictAssign_append (v := w p) (hacc p (by simp))
    have hrec := toDictFields_acc SS cn ps g w
      (acc ++ [(snake_to_pascal p.name (SS cn), w p)])
      (fun q hq => hconv q (List.mem_cons_of_mem _ hq))
      (fun q hq => by
        have h1 : acc.any (fun s => s.1 == snake_to_pascal q.name (SS cn)) =
            false := hacc q (List.mem_cons_of_mem _ hq)
        have h2 : snake_to_pascal p.name (SS cn) ≠
            snake_to_pascal q.name (SS cn) := by
          intro e
          have hmem : snake_to_pascal q.name (SS cn) ∈
              ps.map (fun r => snake_to_pascal r.name (SS cn)) :=
            List.mem_map_of_mem _ hq
          rw [← e] at hmem
          exact (List.nodup_cons.1 hknd).1 hmem
        simp [List.any_append, h1, h2])
      (List.nodup_cons.1 hknd).2
    simp only [List.map_cons]
    simp only [toDictFields, hp, hassign, hrec]
    simp

theorem map_p2s_keys : ∀ (props : List PropSpec) (k : PropSpec → String)
    (w : PropSpec → PyVal), (∀ p ∈ props, p2sName (k p) = p.name) →
    (props.map (fun p => (k p, w p))).map (fun kv => (p2sName kv.1, kv.2)) =
      props.map (fun p => (p.name, w p))
  | [], _, _, _ => rfl
  | p :: ps, k, w, h => by
    simp only [List.map_cons, h p (by simp),
      map_p2s_keys ps k w (fun q hq => h q (List.mem_cons_of_mem _ hq))]

/-- A compiled class whose single required property is named `a1b`: a
declared name on which `pascal_to_snake` does not invert
`snake_to_pascal` (`snake_to_pascal "a1b" = "A1B"` but
`pascal_to_snake "A1B" = "a1_b"`). -/
def widgetA1b : ClassSpec :=
  .mk "Widget" [.mk "a1b" Caster.idC TypeHint.tAny Option.none] Option.none

/-- C1 (counterexample): an instance of `Widget` with required property
`a1b` constructs successfully and serializes to `{"A1B": "v"}`, but
`from_dict` of that very dictionary fails: the key converts back to
`a1_b`, not `a1b`, so the constructor reports the required argument
`a1b` as missing.  The round trip `from_dict (to_dict x)` is therefore
not total on successfully constructed instances. -/
theorem round_trip_idempotence_cex :
    runInit widgetA1b [] [("a1b", PyVal.strV "v")] =
      .ok [("a1b", PyVal.strV "v")] ∧
    toDictObj (fun _ => []) "Widget" [("a1b", PyVal.strV "v")] =
      .ok (.dictV [("A1B", PyVal.strV "v")]) ∧
    fromDictF widgetA1b (.dictV [("A1B", PyVal.strV "v")]) =
      .error (.typeError ("Error while constructing Widget: " ++
        missingArgMsg "a1b")) := by
  refine ⟨?_, ?_, ?_⟩
  · simp [runInit, widgetA1b, bindArgs, bindProps, initLoop, checkAndCast,
      isInstanceE, PropSpec.name, PropSpec.dflt, PropSpec.caster, PropSpec.hint,
      ClassSpec.props, ClassSpec.kwargsProp, List.lookup, Except.bind]
  · have e2 : snake_to_pascal "a1b" [] = "A1B" := rfl
    simp [toDictObj, toDictFields, toDictConv, dictAssign, e2]
  · have e3 : p2sName "A1B" = "a1_b" := rfl
    simp [fromDictF, runInit, widgetA1b, bindArgs, bindProps, initLoop,
      PropSpec.name, PropSpec.dflt, ClassSpec.name, List.lookup, Except.bind,
      e3, missingArgMsg]

/-- C1 (amended): `from_dict` inverts `to_dict` under the conditions the
counterexample shows to be necessary: every declared name survives the
key translation round trip (`pascal_to_snake (snake_to_pascal n) = n`),
the translated keys are pairwise distinct, and each attribute's
serialized value is accepted back by the property's
instance-check-or-cast pipeline as the original value (as holds for
plain values stored verbatim and for nested instances reconstructed by
their class's `from_dict` caster).  Then `to_dict` produces exactly the
translated field list and `from_dict` of it restores every attribute. -/
theorem round_trip_idempotence
    (SS : String → List String) (cn : String) (props : List PropSpec)
    (kwOpt : Option KwSpec) (g w : PropSpec → PyVal)
    (hnd : (props.map PropSpec.name).Nodup)
    (hknd : (props.map (fun p => snake_to_pascal p.name (SS cn))).Nodup)
    (hkey : ∀ p ∈ props, p2sName (snake_to_pascal p.name (SS cn)) = p.name)
    (hconv : ∀ p ∈ props, toDictConv SS (g p) = .ok (w p))
    (hback : ∀ p ∈ props,
      checkAndCast p.caster p.hint p.name (w p) = .ok (g p)) :
    toDictObj SS cn (props.map (fun p => (p.name, g p))) =
      .ok (.dictV (props.map (fun p => (snake_to_pascal p.name (SS cn), w p)))) ∧
    fromDictF (.mk cn props kwOpt)
        (.dictV (props.map (fun p => (snake_to_pascal p.name (SS cn), w p)))) =
      .ok (.objV cn (props.map (fun p => (p.name, g p)))) := by
  have htf := toDictFields_acc SS cn props g w [] hconv (fun p hp => rfl) hknd
  rw [List.nil_append] at htf
  constructor
  · simp only [toDictObj, htf]
  · have hmapkeys : (props.map
        (fun p => (snake_to_pascal p.name (SS cn), w p))).map
          (fun kv => (p2sName kv.1, kv.2)) =
        props.map (fun p => (p.name, w p)) :=
      map_p2s_keys props (fun p => snake_to_pascal p.name (SS cn)) w hkey
    have hlook : ∀ p ∈ props,
        (props.map (fun q => (q.name, w q))).lookup p.name = some (w p) :=
      fun p hp => map_lookup_self hnd hp
    have hrun := runInit_kwargs_ok cn props kwOpt
      (props.map (fun p => (p.name, w p))) g
      (by
        intro p hp _
        rw [hlook p hp]
        rfl)
      (by
        intro p hp
        have hbp : bindVal (props.map (fun q => (q.name, w q))) p = w p := by
          simp [bindVal, hlook p hp]
        rw [hbp]
        exact hback p hp)
      (by
        intro kv hkv
        rcases List.mem_map.1 hkv with ⟨p, hp, rfl⟩
        exact List.any_eq_true.2 ⟨p, hp, by simp⟩)
    simp only [fromDictF]
    rw [hmapkeys, hrun]
    rfl

/-- A nested pair of compiled classes for the round-trip witness. -/
def innerSpec : ClassSpec :=
  .mk "Inner" [.mk "label" Caster.strC TypeHint.tStr Option.none] Option.none

def outerSpec : ClassSpec :=
  .mk "Outer" [.mk "inner" (Caster.fromDict innerSpec) (TypeHint.tClass "Inner")
    Option.none, .mk "count" Caster.intC TypeHint.tInt Option.none] Option.none

/-- The attribute values of the witness instance. -/
def outerVals (p : PropSpec) : PyVal :=
  if p.name == "inner" then .objV "Inner" [("label", PyVal.strV "hi")]
  else .intV 7

/-- Their serialized forms. -/
def outerSer (p : PropSpec) : PyVal :=
  if p.name == "inner" then .dictV [("Label", PyVal.strV "hi")]
  else .intV 7

/-- Witness for C1 (amended): an `Outer` instance holding a nested
`Inner` instance and an `int` serializes to
`{"Inner": {"Label": "hi"}, "Count": 7}` and `from_dict` of that
dictionary restores the instance exactly. -/
theorem round_trip_idempotence_witness :
    toDictObj (fun _ => []) "Outer"
        [("inner", PyVal.objV "Inner" [("label", PyVal.strV "hi")]),
          ("count", PyVal.intV 7)] =
      .ok (.dictV [("Inner", PyVal.dictV [("Label", PyVal.strV "hi")]),
          ("Count", PyVal.intV 7)]) ∧
    fromDictF outerSpec
        (.dictV [("Inner", PyVal.dictV [("Label", PyVal.strV "hi")]),
          ("Count", PyVal.intV 7)]) =
      .ok (.objV "Outer"
        [("inner", PyVal.objV "Inner" [("label", PyVal.strV "hi")]),
          ("count", PyVal.intV 7)]) := by
  have hfd : fromDictF innerSpec (PyVal.dictV [("Label", PyVal.strV "hi")]) =
      .ok (.objV "Inner" [("label", PyVal.strV "hi")]) := by
    have hmap9 : ([(("Label" : String), PyVal.strV "hi")].map
        (fun kv => (p2sName kv.1, kv.2))) =
        [(("label" : String), PyVal.strV "hi")] := by
      have e4 : p2sName "Label" = "label" := rfl
      simp [e4]
    have hrun9 := runInit_kwargs_ok "Inner"
      [PropSpec.mk "label" Caster.strC TypeHint.tStr Option.none]
      Option.none [(("label" : String), PyVal.strV "hi")]
      (fun _ => PyVal.strV "hi")
      (by
        intro q hq _
        have := List.mem_singleton.1 hq
        subst this
        rfl)
      (by
        intro q hq
        have := List.mem_singleton.1 hq
        subst this
        simp only [PropSpec.caster, PropSpec.hint, PropSpec.name]
        rw [show bindVal [(("label" : String), PyVal.strV "hi")]
          (PropSpec.mk "label" Caster.strC TypeHint.tStr Option.none) =
          PyVal.strV "hi" from rfl]
        rw [checkAndCast_not_none Caster.strC TypeHint.tStr "label"
          (PyVal.strV "hi") (fun hx => PyVal.noConfusion hx)]
        rfl)
      (by
        intro kv hkv
        have := List.mem_singleton.1 hkv
        subst this
        rfl)
    have hexp9 : innerSpec = ClassSpec.mk "Inner"
        [PropSpec.mk "label" Caster.strC TypeHint.tStr Option.none]
        Option.none := rfl
    rw [hexp9]
    simp only [fromDictF]
    rw [hmap9, hrun9]
    rfl
  have h := round_trip_idempotence (fun _ => []) "Outer"
    [PropSpec.mk "inner" (Caster.fromDict innerSpec) (TypeHint.tClass "Inner")
      Option.none,
     PropSpec.mk "count" Caster.intC TypeHint.tInt Option.none]
    Option.none outerVals outerSer (by decide) (by decide) (by decide)
    (by
      intro p hp
      have hp2 : p = PropSpec.mk "inner" (Caster.fromDict innerSpec)
          (TypeHint.tClass "Inner") Option.none ∨
          p = PropSpec.mk "count" Caster.intC TypeHint.tInt Option.none := by
        simpa using hp
      rcases hp2 with rfl | rfl
      · have e5 : snake_to_pascal "label" [] = "Label" := rfl
        simp [outerVals, outerSer, PropSpec.name, toDictConv, toDictObj,
          toDictFields, dictAssign, e5]
      · simp [outerVals, outerSer, PropSpec.name, toDictConv])
    (by
      intro p hp
      have hp2 : p = PropSpec.mk "inner" (Caster.fromDict innerSpec)
          (TypeHint.tClass "Inner") Option.none ∨
          p = PropSpec.mk "count" Caster.intC TypeHint.tInt Option.none := by
        simpa using hp
      rcases hp2 with rfl | rfl
      · have hser : outerSer (PropSpec.mk "inner" (Caster.fromDict innerSpec)
            (TypeHint.tClass "Inner") Option.none) =
            PyVal.dictV [("Label", PyVal.strV "hi")] := rfl
        have hval : outerVals (PropSpec.mk "inner" (Caster.fromDict innerSpec)
            (TypeHint.tClass "Inner") Option.none) =
            PyVal.objV "Inner" [("label", PyVal.strV "hi")] := rfl
        rw [hser, hval]
        rw [show (PropSpec.mk "inner" (Caster.fromDict innerSpec)
          (TypeHint.tClass "Inner") Option.none).caster =
          Caster.fromDict innerSpec from rfl]
        rw [show (PropSpec.mk "inner" (Caster.fromDict innerSpec)
          (TypeHint.tClass "Inner") Option.none).hint =
          TypeHint.tClass "Inner" from rfl]
        rw [show (PropSpec.mk "inner" (Caster.fromDict innerSpec)
          (TypeHint.tClass "Inner") Option.none).name = "inner" from rfl]
        rw [checkAndCast_not_none (Caster.fromDict innerSpec)
          (TypeHint.tClass "Inner") "inner"
          (PyVal.dictV [("Label", PyVal.strV "hi")])
          (fun hx => PyVal.noConfusion hx)]
        have hinst : isInstanceE (PyVal.dictV [("Label", PyVal.strV "hi")])
            (TypeHint.tClass "Inner") = .ok false := rfl
        rw [hinst]
        have happ : applyCaster (Caster.fromDict innerSpec)
            (PyVal.dictV [("Label", PyVal.strV "hi")]) =
            fromDictF innerSpec (PyVal.dictV [("Label", PyVal.strV "hi")]) := by
          simp [applyCaster]
        rw [happ, hfd]
      · simp [outerVals, outerSer, PropSpec.name, PropSpec.caster,
          PropSpec.hint, checkAndCast, isInstanceE, plainInst])
  obtain ⟨h1, h2⟩ := h
  have hm1 : ([PropSpec.mk "inner" (Caster.fromDict innerSpec)
      (TypeHint.tClass "Inner") Option.none,
      PropSpec.mk "count" Caster.intC TypeHint.tInt Option.none].map
        (fun p => (p.name, outerVals p))) =
      [("inner", PyVal.objV "Inner" [("label", PyVal.strV "hi")]),
        ("count", PyVal.intV 7)] := rfl
  have hm2 : ([PropSpec.mk "inner" (Caster.fromDict innerSpec)
      (TypeHint.tClass "Inner") Option.none,
      PropSpec.mk "count" Caster.intC TypeHint.tInt Option.none].map
        (fun p => (snake_to_pascal p.name [], outerSer p))) =
      [("Inner", PyVal.dictV [("Label", PyVal.strV "hi")]),
        ("Count", PyVal.intV 7)] := rfl
  rw [hm1, hm2] at h1
  rw [hm1, hm2] at h2
  have ho : outerSpec = ClassSpec.mk "Outer"
      [PropSpec.mk "inner" (Caster.fromDict innerSpec) (TypeHint.tClass "Inner")
        Option.none,
       PropSpec.mk "count" Caster.intC TypeHint.tInt Option.none]
      Option.none := rfl
  refine ⟨h1, ?_⟩
  rw [ho]
  exact h2
